import Mathlib

/-!
Shallow embedding of src/advanced-vector/vector.h.

The C++ file defines two templates: RawMemory (a raw, uninitialized block of
element slots) and Vector (a dynamic array whose live elements occupy a
prefix of the slots).  We model one storage slot as either raw
(no object lifetime active), holding a known element value, or holding a
live but moved-from object of unspecified value.  A vector is its list of
slots (the list length is the capacity) together with the live count.

Properties of the element type T that the C++ code queries at compile time
are collected in a Traits record:
  nothrowMove     models std::is_nothrow_move_constructible_v of T
  copyCtor        models std::is_copy_constructible_v of T
  moveInvalidates whether T has a state-stealing move, so that after a move
                  the source object holds an unspecified value (true for a
                  string-like type, false for an int-like type whose move
                  is a copy)
  valueInit       the value produced by value-initialization of T
                  (zero for arithmetic types)
-/

set_option autoImplicit false

universe u

/-- One storage slot of the raw block: no object, a live object with a known
value, or a live moved-from object of unspecified value. -/
inductive Slot (α : Type u) where
  | raw : Slot α
  | val : α → Slot α
  | moved : Slot α
deriving DecidableEq

/-- A slot holds a live (constructed, not yet destroyed) object. -/
def Slot.isLive {α : Type u} : Slot α → Bool
  | .raw => false
  | .val _ => true
  | .moved => true

/-- Compile-time properties of the element type T that vector.h branches on. -/
structure Traits (α : Type u) where
  nothrowMove : Bool
  copyCtor : Bool
  moveInvalidates : Bool
  valueInit : α

/-- Read slot i of a block; out-of-range reads yield raw (they model addresses
outside the allocation, which never hold a live object of this block). -/
def getS {α : Type u} : List (Slot α) → Nat → Slot α
  | [], _ => .raw
  | s :: _, 0 => s
  | _ :: t, n + 1 => getS t n

/-- Write the range of indices from start to start + n (exclusive), slot i
receiving f i.  Shared shape of the bulk construct, destroy and copy loops
in vector.h. -/
def fillN {α : Type u} (f : Nat → Slot α) : List (Slot α) → Nat → Nat → List (Slot α)
  | l, _, 0 => l
  | l, start, n + 1 => fillN f (l.set start (f start)) (start + 1) n

/-- Embeds std::uninitialized_copy_n(src + srcFrom, n, dst + dstFrom): slot
dstFrom + k of dst receives the value of slot srcFrom + k of src. -/
def uninitCopyN {α : Type u} (src : List (Slot α)) (srcFrom n : Nat)
    (dst : List (Slot α)) (dstFrom : Nat) : List (Slot α) :=
  fillN (fun t => getS src (srcFrom + t - dstFrom)) dst dstFrom n

/-- Embeds std::copy(src + srcFrom, src + srcFrom + n, dst + dstFrom): the
per-element copy assignment writes the same values as an uninitialized copy
in this value model (it differs only in requiring the target slots live). -/
def copyRange {α : Type u} (src : List (Slot α)) (srcFrom n : Nat)
    (dst : List (Slot α)) (dstFrom : Nat) : List (Slot α) :=
  fillN (fun t => getS src (srcFrom + t - dstFrom)) dst dstFrom n

/-- Embeds std::destroy_n(l + start, n): the n slots return to the raw state. -/
def destroyN {α : Type u} (l : List (Slot α)) (start n : Nat) : List (Slot α) :=
  fillN (fun _ => .raw) l start n

/-- Embeds std::uninitialized_value_construct_n(l + start, n): each new slot
holds the value-initialized value of the element type. -/
def uninitValueConstructN {α : Type u} (z : α) (l : List (Slot α)) (start n : Nat) :
    List (Slot α) :=
  fillN (fun _ => .val z) l start n

/-- Embeds std::uninitialized_move_n(src + srcFrom, n, dst + dstFrom).
Returns (src after, dst after): each destination slot receives the current
value of its source slot, and a state-stealing move leaves the source slot
moved-from. -/
def uninitMoveN {α : Type u} (inval : Bool) : List (Slot α) → Nat → Nat →
    List (Slot α) → Nat → List (Slot α) × List (Slot α)
  | src, _, 0, dst, _ => (src, dst)
  | src, srcFrom, n + 1, dst, dstFrom =>
    let v := getS src srcFrom
    let src1 := if inval then src.set srcFrom .moved else src
    uninitMoveN inval src1 (srcFrom + 1) n (dst.set dstFrom v) (dstFrom + 1)

/-- Loop body iteration of std::move_backward, indexed by the number of
remaining iterations: while iterations remain, move-assign the slot at
last - 1 to the slot at dlast - 1 and step both ends down.  The writes
happen back to front on the same block, so later reads see earlier writes,
exactly as in the C++ algorithm. -/
def moveBackwardCnt {α : Type u} (inval : Bool) : Nat → List (Slot α) → Nat → Nat →
    List (Slot α)
  | 0, l, _, _ => l
  | n + 1, l, last, dlast =>
    let v := getS l (last - 1)
    let l1 := l.set (dlast - 1) v
    let l2 := if inval then l1.set (last - 1) .moved else l1
    moveBackwardCnt inval n l2 (last - 1) (dlast - 1)

/-- Embeds std::move_backward(l + first, l + last, l + dlast); the while
loop of the algorithm runs exactly last - first times. -/
def moveBackwardStd {α : Type u} (inval : Bool) (l : List (Slot α))
    (first last dlast : Nat) : List (Slot α) :=
  moveBackwardCnt inval (last - first) l last dlast

/-- Loop body iteration of std::move, indexed by the number of remaining
iterations: front-to-back move assignment on the same block. -/
def moveForwardCnt {α : Type u} (inval : Bool) : Nat → List (Slot α) → Nat → Nat →
    List (Slot α)
  | 0, l, _, _ => l
  | n + 1, l, first, dfirst =>
    let v := getS l first
    let l1 := l.set dfirst v
    let l2 := if inval then l1.set first .moved else l1
    moveForwardCnt inval n l2 (first + 1) (dfirst + 1)

/-- Embeds std::move(l + first, l + last, l + dfirst); the while loop of
the algorithm runs exactly last - first times. -/
def moveForwardStd {α : Type u} (inval : Bool) (l : List (Slot α))
    (first last dfirst : Nat) : List (Slot α) :=
  moveForwardCnt inval (last - first) l first dfirst

/-! ## RawMemory

The RawMemory template owns a raw block: a pointer buffer and a slot count
capacity.  For the ownership claims only these two members matter; we model
the pointer as a natural number with 0 playing the role of nullptr. -/

/-- The two data members of RawMemory: buffer (0 models nullptr) and
capacity. -/
structure RawMemory where
  buffer : Nat
  capacity : Nat
deriving DecidableEq

/-- The default-constructed RawMemory: null buffer, zero capacity. -/
def rawMemoryNull : RawMemory := { buffer := 0, capacity := 0 }

/-- Embeds the RawMemory move constructor.  The body reads
other.GetAddress() and other.Capacity() into the new members and performs
no write to the source, so the result is (constructed target, source after
the move).  Note the source keeps its buffer and capacity. -/
def rawMemoryMoveCtor (other : RawMemory) : RawMemory × RawMemory :=
  ({ buffer := other.buffer, capacity := other.capacity }, other)

/-- Embeds the RawMemory move assignment operator.  The body overwrites
the two members of the target from rhs.GetAddress() and rhs.Capacity() and
performs no write to rhs; the previous buffer of the target is neither
deallocated nor returned.  Result is (target after, rhs after). -/
def rawMemoryMoveAssign (_self rhs : RawMemory) : RawMemory × RawMemory :=
  ({ buffer := rhs.buffer, capacity := rhs.capacity }, rhs)

/-! ## Vector

The Vector template owns a RawMemory data member plus the live count size.
We carry the slot list of the block directly (its length is the capacity of
the RawMemory member). -/

/-- The Vector state: the slots of its RawMemory block plus the live count. -/
structure Vec (α : Type u) where
  cells : List (Slot α)
  size : Nat
deriving DecidableEq

/-- Capacity of a vector delegates to its block: the slot count. -/
def Vec.capacity {α : Type u} (v : Vec α) : Nat := v.cells.length

/-- The default-constructed Vector: no block, size zero. -/
def vectorDefault {α : Type u} : Vec α := { cells := [], size := 0 }

/-- Embeds Vector::Swap: exchanges the blocks and the sizes. -/
def vectorSwap {α : Type u} (a b : Vec α) : Vec α × Vec α := (b, a)

/-- Embeds the sized constructor Vector(size_t size): allocate a block of
size raw slots, then value-construct size elements in place with
std::uninitialized_value_construct_n. -/
def mkVectorSized {α : Type u} (tc : Traits α) (n : Nat) : Vec α :=
  { cells := uninitValueConstructN tc.valueInit (List.replicate n .raw) 0 n,
    size := n }

/-- Embeds the copy constructor Vector(const Vector and): allocate a block
exactly sized to other.size, then std::uninitialized_copy_n the live
elements of the source into it. -/
def vectorCopy {α : Type u} (other : Vec α) : Vec α :=
  { cells := uninitCopyN other.cells 0 other.size (List.replicate other.size .raw) 0,
    size := other.size }

/-- Embeds the move constructor Vector(Vector and and): the target starts
default-constructed and swaps with the source.  Result is (target, source
after). -/
def vectorMoveCtor {α : Type u} (other : Vec α) : Vec α × Vec α :=
  vectorSwap vectorDefault other

/-- Embeds the move assignment operator: when this and rhs are distinct
objects (same = false) the two vectors swap; on self-assignment (same =
true, which requires rhs to be the very object self) nothing happens.
Result is (target after, rhs after). -/
def vectorMoveAssign {α : Type u} (same : Bool) (self rhs : Vec α) : Vec α × Vec α :=
  if same then (self, rhs) else vectorSwap self rhs

/-- Embeds Vector::Reserve(new_capacity).  A request not above the current
capacity returns at once.  Otherwise a fresh block of exactly new_capacity
raw slots is allocated and the size live elements are transferred by
std::uninitialized_move_n when the element type is nothrow move
constructible or not copy constructible, by std::uninitialized_copy_n
otherwise; the old elements are then destroyed and the blocks swapped. -/
def reserve {α : Type u} (tc : Traits α) (v : Vec α) (newCapacity : Nat) : Vec α :=
  if newCapacity ≤ v.capacity then v
  else
    let newData : List (Slot α) := List.replicate newCapacity .raw
    let newCells :=
      if tc.nothrowMove || !tc.copyCtor then
        (uninitMoveN tc.moveInvalidates v.cells 0 v.size newData 0).2
      else
        uninitCopyN v.cells 0 v.size newData 0
    { cells := newCells, size := v.size }

/-- Embeds Vector::Resize(new_size): shrinking destroys the tail beyond
new_size; growing reserves room and value-constructs the new tail slots. -/
def resize {α : Type u} (tc : Traits α) (v : Vec α) (newSize : Nat) : Vec α :=
  if newSize < v.size then
    { cells := destroyN v.cells newSize (v.size - newSize), size := newSize }
  else
    let v1 := reserve tc v newSize
    { cells := uninitValueConstructN tc.valueInit v1.cells v1.size (newSize - v1.size),
      size := newSize }

/-- Embeds Vector::EmplaceBack with the construction of the new element
modeled as newElem: some a constructs the value a, none models a throwing
constructor.  When size equals capacity, a block of (IsEmpty() ? 1 :
size * 2) raw slots is allocated, the new element is constructed into slot
size of the new block first, then the old elements are transferred under
the move-or-copy rule, destroyed, and the blocks swapped.  Otherwise the
new element is constructed into slot size of the current block.  On a
throwing construction the error carries the vector state the exception
escapes with. -/
def emplaceBackF {α : Type u} (tc : Traits α) (newElem : Option α) (v : Vec α) :
    Except (Vec α) (Vec α) :=
  if v.size = v.capacity then
    let newCap := if v.size = 0 then 1 else v.size * 2
    let newData : List (Slot α) := List.replicate newCap .raw
    match newElem with
    | none => .error v
    | some a =>
      let nd1 := newData.set v.size (.val a)
      let newCells :=
        if tc.nothrowMove || !tc.copyCtor then
          (uninitMoveN tc.moveInvalidates v.cells 0 v.size nd1 0).2
        else
          uninitCopyN v.cells 0 v.size nd1 0
      .ok { cells := newCells, size := v.size + 1 }
  else
    match newElem with
    | none => .error v
    | some a => .ok { cells := v.cells.set v.size (.val a), size := v.size + 1 }

/-- Extracts the vector state an operation ends in, whether it returned or
propagated an exception. -/
def runState {α : Type u} : Except (Vec α) (Vec α) → Vec α
  | .ok v => v
  | .error v => v

/-- Vector::EmplaceBack on a non-throwing construction. -/
def emplaceBack {α : Type u} (tc : Traits α) (a : α) (v : Vec α) : Vec α :=
  runState (emplaceBackF tc (some a) v)

/-- Embeds both Vector::PushBack overloads, which forward to EmplaceBack. -/
def pushBack {α : Type u} (tc : Traits α) (a : α) (v : Vec α) : Vec α :=
  emplaceBack tc a v

/-- Embeds Vector::PopBack: destroy the last live element and decrement
size; nothing happens on an empty vector. -/
def popBack {α : Type u} (v : Vec α) : Vec α :=
  if 0 < v.size then
    { cells := v.cells.set (v.size - 1) .raw, size := v.size - 1 }
  else v

/-- Embeds Vector::Emplace(pos, args) at slot index shift = pos - begin(),
with the construction of the new element modeled as newElem (none models a
throwing constructor).  When size equals capacity: allocate a block of
(IsEmpty() ? 1 : size * 2) raw slots, construct the new element into slot
shift of the new block first, then transfer the prefix to the same indices
and the suffix one slot higher, under the move-or-copy rule; destroy the
old elements and swap blocks.  Otherwise, when size is nonzero, first
move-construct the current last element into slot size, shift the range
from shift to size one slot right with std::move_backward (both branches
of the if constexpr in this path are identical in the source), destroy
slot shift, and finally construct the new element into slot shift. -/
def emplaceF {α : Type u} (tc : Traits α) (newElem : Option α) (v : Vec α)
    (shift : Nat) : Except (Vec α) (Vec α) :=
  if v.size = v.capacity then
    let newCap := if v.size = 0 then 1 else v.size * 2
    let newData : List (Slot α) := List.replicate newCap .raw
    match newElem with
    | none => .error v
    | some a =>
      let nd1 := newData.set shift (.val a)
      let newCells :=
        if tc.nothrowMove || !tc.copyCtor then
          let p := uninitMoveN tc.moveInvalidates v.cells 0 shift nd1 0
          (uninitMoveN tc.moveInvalidates p.1 shift (v.size - shift) p.2 (shift + 1)).2
        else
          let d1 := uninitCopyN v.cells 0 shift nd1 0
          uninitCopyN v.cells shift (v.size - shift) d1 (shift + 1)
      .ok { cells := newCells, size := v.size + 1 }
  else
    let cells1 :=
      if v.size ≠ 0 then
        let lastVal := getS v.cells (v.size - 1)
        let afterLast :=
          let c := v.cells.set v.size lastVal
          if tc.moveInvalidates then c.set (v.size - 1) .moved else c
        let shifted := moveBackwardStd tc.moveInvalidates afterLast shift v.size (v.size + 1)
        shifted.set shift .raw
      else v.cells
    match newElem with
    | none => .error { cells := cells1, size := v.size }
    | some a => .ok { cells := cells1.set shift (.val a), size := v.size + 1 }

/-- Vector::Emplace on a non-throwing construction. -/
def emplace {α : Type u} (tc : Traits α) (v : Vec α) (shift : Nat) (a : α) : Vec α :=
  runState (emplaceF tc (some a) v shift)

/-- Embeds both Vector::Insert overloads, which forward to Emplace. -/
def insert {α : Type u} (tc : Traits α) (v : Vec α) (shift : Nat) (a : α) : Vec α :=
  emplace tc v shift a

/-- Embeds Vector::Erase(pos) at slot index = pos - begin(): move-assign
every element after the position one slot left, then PopBack. -/
def erase {α : Type u} (tc : Traits α) (v : Vec α) (index : Nat) : Vec α :=
  popBack { cells := moveForwardStd tc.moveInvalidates v.cells (index + 1) v.size index,
            size := v.size }

/-- Embeds the copy assignment operator, with per-element copy failures
modeled by failAt: some k makes the k-th element copy of this call throw
(counting every copy constructor and copy assignment the call performs, in
order), none makes every copy succeed.  The parameter same models the
this != rhs address guard.  When the capacity is short of rhs.size a full
temporary copy is built and swapped in, so a throwing copy leaves the
target untouched.  Otherwise the common prefix is overwritten in place
with std::copy and the tail is either destroyed or copy-constructed; a
throwing copy then escapes with the partially overwritten state, the
partially constructed tail being unwound by uninitialized_copy_n itself.
Returns (target after, rhs after); rhs is const in the source and is never
written. -/
def copyAssignF {α : Type u} (failAt : Option Nat) (same : Bool)
    (self rhs : Vec α) : Except (Vec α × Vec α) (Vec α × Vec α) :=
  if same then .ok (self, rhs)
  else if self.capacity < rhs.size then
    match failAt with
    | some k =>
      if k < rhs.size then .error (self, rhs)
      else .ok (vectorCopy rhs, rhs)
    | none => .ok (vectorCopy rhs, rhs)
  else if rhs.size < self.size then
    match failAt with
    | some k =>
      if k < rhs.size then
        .error ({ cells := copyRange rhs.cells 0 k self.cells 0, size := self.size }, rhs)
      else
        .ok ({ cells := destroyN (copyRange rhs.cells 0 rhs.size self.cells 0)
                          rhs.size (self.size - rhs.size),
               size := rhs.size }, rhs)
    | none =>
      .ok ({ cells := destroyN (copyRange rhs.cells 0 rhs.size self.cells 0)
                        rhs.size (self.size - rhs.size),
             size := rhs.size }, rhs)
  else
    match failAt with
    | some k =>
      if k < self.size then
        .error ({ cells := copyRange rhs.cells 0 k self.cells 0, size := self.size }, rhs)
      else if k < rhs.size then
        .error ({ cells := copyRange rhs.cells 0 self.size self.cells 0, size := self.size }, rhs)
      else
        .ok ({ cells := uninitCopyN rhs.cells self.size (rhs.size - self.size)
                          (copyRange rhs.cells 0 self.size self.cells 0) self.size,
               size := rhs.size }, rhs)
    | none =>
      .ok ({ cells := uninitCopyN rhs.cells self.size (rhs.size - self.size)
                        (copyRange rhs.cells 0 self.size self.cells 0) self.size,
             size := rhs.size }, rhs)

/-- The copy assignment operator on a run where every element copy
succeeds, projected to the target. -/
def copyAssign {α : Type u} (same : Bool) (self rhs : Vec α) : Vec α :=
  match copyAssignF none same self rhs with
  | .ok p => p.1
  | .error p => p.1

/-- Extracts the pair of vector states an assignment ends in, whether it
returned or propagated an exception. -/
def runStateP {α : Type u} : Except (Vec α × Vec α) (Vec α × Vec α) → Vec α × Vec α
  | .ok p => p
  | .error p => p

/-- The transfer-strategy condition written verbatim in Reserve,
EmplaceBack and Emplace: the live elements are moved into the new block
exactly when the element type is nothrow move constructible or is not copy
constructible, and copied otherwise. -/
def transfersByMove {α : Type u} (tc : Traits α) : Bool :=
  tc.nothrowMove || !tc.copyCtor

/-- The class invariant of Vector stated over the model: the live count is
bounded by the capacity, every slot below size holds a live element, and
every slot at or above size is raw. -/
def VecInv {α : Type u} (v : Vec α) : Prop :=
  v.size ≤ v.cells.length ∧
  (∀ i, i < v.size → (getS v.cells i).isLive = true) ∧
  (∀ i, v.size ≤ i → (getS v.cells i).isLive = false)

/-- Executable form of the class invariant. -/
def invB {α : Type u} (v : Vec α) : Bool :=
  decide (v.size ≤ v.cells.length) &&
  (List.range v.cells.length).all
    (fun i => if i < v.size then (getS v.cells i).isLive else !(getS v.cells i).isLive)

/-! ## Basic lemmas about the slot-list helpers -/

theorem getS_eq_raw_of_le {α : Type u} : ∀ (l : List (Slot α)) (i : Nat),
    l.length ≤ i → getS l i = .raw
  | [], _, _ => rfl
  | _ :: _, 0, h => absurd h (by simp)
  | _ :: t, i + 1, h => getS_eq_raw_of_le t i (by simpa using h)

theorem getS_set_self {α : Type u} : ∀ (l : List (Slot α)) (i : Nat) (s : Slot α),
    i < l.length → getS (l.set i s) i = s
  | _ :: _, 0, _, _ => rfl
  | _ :: t, i + 1, s, h => getS_set_self t i s (by simpa using h)
  | [], _, _, h => absurd h (by simp)

theorem getS_set_ne {α : Type u} : ∀ (l : List (Slot α)) (i j : Nat) (s : Slot α),
    i ≠ j → getS (l.set i s) j = getS l j
  | [], _, _, _, _ => rfl
  | _ :: _, 0, 0, _, h => absurd rfl h
  | _ :: _, 0, _ + 1, _, _ => rfl
  | _ :: _, _ + 1, 0, _, _ => rfl
  | _ :: t, i + 1, j + 1, s, h => getS_set_ne t i j s (fun e => h (by omega))

theorem getS_replicate {α : Type u} : ∀ (n i : Nat),
    getS (List.replicate n (Slot.raw : Slot α)) i = .raw
  | 0, _ => rfl
  | _ + 1, 0 => rfl
  | n + 1, i + 1 => getS_replicate n i

theorem fillN_length {α : Type u} (f : Nat → Slot α) :
    ∀ (n : Nat) (l : List (Slot α)) (start : Nat),
      (fillN f l start n).length = l.length
  | 0, _, _ => rfl
  | n + 1, l, start => by
    rw [show fillN f l start (n + 1) = fillN f (l.set start (f start)) (start + 1) n from rfl,
      fillN_length f n, List.length_set]

theorem getS_fillN_out {α : Type u} (f : Nat → Slot α) :
    ∀ (n : Nat) (l : List (Slot α)) (start t : Nat),
      (t < start ∨ start + n ≤ t) → getS (fillN f l start n) t = getS l t
  | 0, _, _, _, _ => rfl
  | n + 1, l, start, t, h => by
    rw [show fillN f l start (n + 1) = fillN f (l.set start (f start)) (start + 1) n from rfl,
      getS_fillN_out f n _ _ _ (by omega), getS_set_ne _ _ _ _ (by omega)]

theorem getS_fillN_in {α : Type u} (f : Nat → Slot α) :
    ∀ (n : Nat) (l : List (Slot α)) (start t : Nat),
      start ≤ t → t < start + n → t < l.length → getS (fillN f l start n) t = f t
  | 0, _, _, _, _, h2, _ => by omega
  | n + 1, l, start, t, h1, h2, h3 => by
    rw [show fillN f l start (n + 1) = fillN f (l.set start (f start)) (start + 1) n from rfl]
    rcases Nat.eq_or_lt_of_le h1 with he | hlt
    · rw [getS_fillN_out f n _ _ _ (by omega), ← he, getS_set_self _ _ _ (by omega)]
    · rw [getS_fillN_in f n _ _ _ (by omega) (by omega) (by simpa using h3)]

theorem fillN_congr {α : Type u} (f g : Nat → Slot α) :
    ∀ (n : Nat) (l : List (Slot α)) (start : Nat),
      (∀ t, start ≤ t → t < start + n → f t = g t) → fillN f l start n = fillN g l start n
  | 0, _, _, _ => rfl
  | n + 1, l, start, h => by
    rw [show fillN f l start (n + 1) = fillN f (l.set start (f start)) (start + 1) n from rfl,
      show fillN g l start (n + 1) = fillN g (l.set start (g start)) (start + 1) n from rfl,
      h start (Nat.le_refl _) (by omega), fillN_congr f g n _ _ (fun t ht1 ht2 => h t (by omega) (by omega))]

theorem uninitMoveN_snd {α : Type u} (inval : Bool) :
    ∀ (n : Nat) (src : List (Slot α)) (srcFrom : Nat) (dst : List (Slot α)) (dstFrom : Nat),
      (uninitMoveN inval src srcFrom n dst dstFrom).2 = uninitCopyN src srcFrom n dst dstFrom
  | 0, _, _, _, _ => rfl
  | n + 1, src, srcFrom, dst, dstFrom => by
    show (uninitMoveN inval (if inval then src.set srcFrom .moved else src) (srcFrom + 1) n
        (dst.set dstFrom (getS src srcFrom)) (dstFrom + 1)).2 = _
    rw [uninitMoveN_snd inval n]
    unfold uninitCopyN
    rw [show fillN (fun t => getS src (srcFrom + t - dstFrom)) dst dstFrom (n + 1) =
        fillN (fun t => getS src (srcFrom + t - dstFrom))
          (dst.set dstFrom (getS src (srcFrom + dstFrom - dstFrom))) (dstFrom + 1) n from rfl]
    rw [show srcFrom + dstFrom - dstFrom = srcFrom by omega]
    apply fillN_congr
    intro t ht1 ht2
    have hidx : srcFrom + 1 + t - (dstFrom + 1) = srcFrom + t - dstFrom := by omega
    rw [hidx]
    cases inval with
    | false => rfl
    | true =>
      rw [if_pos rfl, getS_set_ne _ _ _ _ (by omega)]

theorem uninitMoveN_fst_outside {α : Type u} (inval : Bool) :
    ∀ (n : Nat) (src : List (Slot α)) (srcFrom : Nat) (dst : List (Slot α)) (dstFrom t : Nat),
      (t < srcFrom ∨ srcFrom + n ≤ t) →
      getS (uninitMoveN inval src srcFrom n dst dstFrom).1 t = getS src t
  | 0, _, _, _, _, _, _ => rfl
  | n + 1, src, srcFrom, dst, dstFrom, t, h => by
    show getS (uninitMoveN inval (if inval then src.set srcFrom .moved else src) (srcFrom + 1) n
        (dst.set dstFrom (getS src srcFrom)) (dstFrom + 1)).1 t = _
    rw [uninitMoveN_fst_outside inval n _ _ _ _ _ (by omega)]
    cases inval with
    | false => rfl
    | true => rw [if_pos rfl, getS_set_ne _ _ _ _ (by omega)]

theorem uninitCopyN_congr_src {α : Type u} (src1 src2 : List (Slot α))
    (srcFrom n : Nat) (dst : List (Slot α)) (dstFrom : Nat)
    (h : ∀ k, k < n → getS src1 (srcFrom + k) = getS src2 (srcFrom + k)) :
    uninitCopyN src1 srcFrom n dst dstFrom = uninitCopyN src2 srcFrom n dst dstFrom := by
  unfold uninitCopyN
  apply fillN_congr
  intro t ht1 ht2
  have hk : srcFrom + t - dstFrom = srcFrom + (t - dstFrom) := by omega
  rw [hk, h (t - dstFrom) (by omega)]

theorem moveBackwardCnt_length {α : Type u} (inval : Bool) :
    ∀ (n : Nat) (l : List (Slot α)) (last dlast : Nat),
      (moveBackwardCnt inval n l last dlast).length = l.length
  | 0, _, _, _ => rfl
  | n + 1, l, last, dlast => by
    rw [show moveBackwardCnt inval (n + 1) l last dlast =
        moveBackwardCnt inval n
          (if inval then (l.set (dlast - 1) (getS l (last - 1))).set (last - 1) Slot.moved
           else l.set (dlast - 1) (getS l (last - 1))) (last - 1) (dlast - 1) from rfl,
      moveBackwardCnt_length inval n]
    cases inval with
    | false => rw [if_neg (by simp), List.length_set]
    | true => rw [if_pos rfl, List.length_set, List.length_set]

theorem moveBackwardStd_length {α : Type u} (inval : Bool) :
    ∀ (last : Nat) (l : List (Slot α)) (first dlast : Nat),
      (moveBackwardStd inval l first last dlast).length = l.length := by
  intro last l first dlast
  exact moveBackwardCnt_length inval (last - first) l last dlast

theorem getS_moveBackwardCnt_outside {α : Type u} (inval : Bool) :
    ∀ (n : Nat) (l : List (Slot α)) (last t : Nat), n ≤ last →
      (t < last - n ∨ last < t) →
      getS (moveBackwardCnt inval n l last (last + 1)) t = getS l t
  | 0, _, _, _, _, _ => rfl
  | n + 1, l, last, t, hn, ht => by
    rw [show moveBackwardCnt inval (n + 1) l last (last + 1) =
        moveBackwardCnt inval n
          (if inval then (l.set (last + 1 - 1) (getS l (last - 1))).set (last - 1) Slot.moved
           else l.set (last + 1 - 1) (getS l (last - 1))) (last - 1) (last + 1 - 1) from rfl,
      show last + 1 - 1 = (last - 1) + 1 by omega,
      getS_moveBackwardCnt_outside inval n _ (last - 1) t (by omega) (by omega)]
    cases inval with
    | false => rw [if_neg (by simp), getS_set_ne _ _ _ _ (by omega)]
    | true => rw [if_pos rfl, getS_set_ne _ _ _ _ (by omega), getS_set_ne _ _ _ _ (by omega)]

theorem moveBackwardCnt_live {α : Type u} (inval : Bool) :
    ∀ (n : Nat) (l : List (Slot α)) (last : Nat), n ≤ last → last < l.length →
      (∀ j, last - n ≤ j → j < last → (getS l j).isLive = true) →
      (getS l last).isLive = true →
      ∀ j, last - n ≤ j → j ≤ last →
        (getS (moveBackwardCnt inval n l last (last + 1)) j).isLive = true
  | 0, l, last, hn, hlen, hlive, hlast, j, hj1, hj2 => by
    have hje : j = last := by omega
    rw [show moveBackwardCnt inval 0 l last (last + 1) = l from rfl, hje]
    exact hlast
  | n + 1, l, last, hn, hlen, hlive, hlast, j, hj1, hj2 => by
    rw [show moveBackwardCnt inval (n + 1) l last (last + 1) =
        moveBackwardCnt inval n
          (if inval then (l.set (last + 1 - 1) (getS l (last - 1))).set (last - 1) Slot.moved
           else l.set (last + 1 - 1) (getS l (last - 1))) (last - 1) (last + 1 - 1) from rfl,
      show last + 1 - 1 = (last - 1) + 1 by omega]
    set L2 := (if inval then (l.set ((last - 1) + 1) (getS l (last - 1))).set (last - 1)
        Slot.moved
      else l.set ((last - 1) + 1) (getS l (last - 1))) with hL2
    have hL2len : L2.length = l.length := by
      rw [hL2]
      cases inval with
      | false => rw [if_neg (by simp), List.length_set]
      | true => rw [if_pos rfl, List.length_set, List.length_set]
    have hlast1 : (last - 1) + 1 = last := by omega
    have hvlive : (getS l (last - 1)).isLive = true := hlive (last - 1) (by omega) (by omega)
    have hL2live : ∀ k, last - 1 - n ≤ k → k < last - 1 → (getS L2 k).isLive = true := by
      intro k hk1 hk2
      rw [hL2]
      cases inval with
      | false =>
        rw [if_neg (by simp), getS_set_ne _ _ _ _ (by omega)]
        exact hlive k (by omega) (by omega)
      | true =>
        rw [if_pos rfl, getS_set_ne _ _ _ _ (by omega), getS_set_ne _ _ _ _ (by omega)]
        exact hlive k (by omega) (by omega)
    have hL2last : (getS L2 (last - 1)).isLive = true := by
      rw [hL2]
      cases inval with
      | false =>
        rw [if_neg (by simp), getS_set_ne _ _ _ _ (by omega)]
        exact hvlive
      | true =>
        rw [if_pos rfl, getS_set_self _ _ _ (by rw [List.length_set]; omega)]
        rfl
    rcases Nat.lt_or_ge j last with hjlt | hjge
    · exact moveBackwardCnt_live inval n L2 (last - 1) (by omega) (by omega) hL2live hL2last
        j (by omega) (by omega)
    · have hje : j = last := by omega
      rw [getS_moveBackwardCnt_outside inval n L2 (last - 1) j (by omega) (by omega), hje,
        hL2]
      cases inval with
      | false =>
        rw [if_neg (by simp), hlast1, getS_set_self _ _ _ (by omega)]
        exact hvlive
      | true =>
        rw [if_pos rfl, getS_set_ne _ _ _ _ (by omega), hlast1,
          getS_set_self _ _ _ (by omega)]
        exact hvlive

theorem getS_moveBackwardStd_outside {α : Type u} (inval : Bool) :
    ∀ (last : Nat) (l : List (Slot α)) (first t : Nat),
      (t < first ∨ last < t) →
      getS (moveBackwardStd inval l first last (last + 1)) t = getS l t := by
  intro last l first t ht
  show getS (moveBackwardCnt inval (last - first) l last (last + 1)) t = getS l t
  rcases le_or_lt first last with hle | hlt
  · exact getS_moveBackwardCnt_outside inval (last - first) l last t (by omega) (by omega)
  · rw [show last - first = 0 by omega]
    rfl

theorem moveBackwardStd_live {α : Type u} (inval : Bool) :
    ∀ (last : Nat) (l : List (Slot α)) (first : Nat),
      last < l.length →
      (∀ j, first ≤ j → j < last → (getS l j).isLive = true) →
      (getS l last).isLive = true →
      ∀ j, first ≤ j → j ≤ last →
        (getS (moveBackwardStd inval l first last (last + 1)) j).isLive = true := by
  intro last l first hlen hlive hlast j hj1 hj2
  show (getS (moveBackwardCnt inval (last - first) l last (last + 1)) j).isLive = true
  exact moveBackwardCnt_live inval (last - first) l last (by omega) hlen
    (fun k hk1 hk2 => hlive k (by omega) hk2) hlast j (by omega) hj2

theorem moveForwardCnt_length {α : Type u} (inval : Bool) :
    ∀ (n : Nat) (l : List (Slot α)) (first dfirst : Nat),
      (moveForwardCnt inval n l first dfirst).length = l.length
  | 0, _, _, _ => rfl
  | n + 1, l, first, dfirst => by
    rw [show moveForwardCnt inval (n + 1) l first dfirst =
        moveForwardCnt inval n
          (if inval then (l.set dfirst (getS l first)).set first Slot.moved
           else l.set dfirst (getS l first)) (first + 1) (dfirst + 1) from rfl,
      moveForwardCnt_length inval n]
    cases inval with
    | false => rw [if_neg (by simp), List.length_set]
    | true => rw [if_pos rfl, List.length_set, List.length_set]

theorem moveForwardStd_length {α : Type u} (inval : Bool) :
    ∀ (fuel : Nat) (l : List (Slot α)) (first last dfirst : Nat), last - first = fuel →
      (moveForwardStd inval l first last dfirst).length = l.length := by
  intro fuel l first last dfirst hf
  exact moveForwardCnt_length inval (last - first) l first dfirst

theorem getS_moveForwardCnt_outside {α : Type u} (inval : Bool) :
    ∀ (n : Nat) (l : List (Slot α)) (first dfirst t : Nat), dfirst ≤ first →
      (t < dfirst ∨ first + n ≤ t) →
      getS (moveForwardCnt inval n l first dfirst) t = getS l t
  | 0, _, _, _, _, _, _ => rfl
  | n + 1, l, first, dfirst, t, hd, ht => by
    rw [show moveForwardCnt inval (n + 1) l first dfirst =
        moveForwardCnt inval n
          (if inval then (l.set dfirst (getS l first)).set first Slot.moved
           else l.set dfirst (getS l first)) (first + 1) (dfirst + 1) from rfl,
      getS_moveForwardCnt_outside inval n _ (first + 1) (dfirst + 1) t (by omega) (by omega)]
    cases inval with
    | false => rw [if_neg (by simp), getS_set_ne _ _ _ _ (by omega)]
    | true => rw [if_pos rfl, getS_set_ne _ _ _ _ (by omega), getS_set_ne _ _ _ _ (by omega)]

theorem getS_moveForwardStd_outside {α : Type u} (inval : Bool) :
    ∀ (fuel : Nat) (l : List (Slot α)) (first last dfirst t : Nat), last - first = fuel →
      dfirst ≤ first → (t < dfirst ∨ last ≤ t) →
      getS (moveForwardStd inval l first last dfirst) t = getS l t := by
  intro fuel l first last dfirst t hf hd ht
  show getS (moveForwardCnt inval (last - first) l first dfirst) t = getS l t
  rcases le_or_lt first last with hle | hlt
  · exact getS_moveForwardCnt_outside inval (last - first) l first dfirst t hd (by omega)
  · rw [show last - first = 0 by omega]
    rfl

theorem moveForwardCnt_live {α : Type u} (inval : Bool) :
    ∀ (n : Nat) (l : List (Slot α)) (first dfirst : Nat), dfirst ≤ first →
      (∀ j, dfirst ≤ j → j < first + n → (getS l j).isLive = true) →
      ∀ j, dfirst ≤ j → j < first + n →
        (getS (moveForwardCnt inval n l first dfirst) j).isLive = true
  | 0, l, first, dfirst, hd, hlive, j, hj1, hj2 => by
    rw [show moveForwardCnt inval 0 l first dfirst = l from rfl]
    exact hlive j hj1 hj2
  | n + 1, l, first, dfirst, hd, hlive, j, hj1, hj2 => by
    rw [show moveForwardCnt inval (n + 1) l first dfirst =
        moveForwardCnt inval n
          (if inval then (l.set dfirst (getS l first)).set first Slot.moved
           else l.set dfirst (getS l first)) (first + 1) (dfirst + 1) from rfl]
    set L2 := (if inval then (l.set dfirst (getS l first)).set first Slot.moved
      else l.set dfirst (getS l first)) with hL2
    have hvlive : (getS l first).isLive = true := hlive first (by omega) (by omega)
    have hL2live : ∀ k, dfirst + 1 ≤ k → k < (first + 1) + n →
        (getS L2 k).isLive = true := by
      intro k hk1 hk2
      rw [hL2]
      rcases eq_or_ne k first with he | hne
      · cases inval with
        | false =>
          rw [if_neg (by simp)]
          rcases eq_or_ne dfirst k with he2 | hne2
          · by_cases hlen : dfirst < l.length
            · rw [← he2, getS_set_self _ _ _ hlen]
              exact hvlive
            · have h0 := hlive k (by omega) (by omega)
              rw [getS_eq_raw_of_le _ _ (by omega)] at h0
              exact absurd h0 (by simp [Slot.isLive])
          · rw [getS_set_ne _ _ _ _ hne2]
            exact hlive k (by omega) (by omega)
        | true =>
          rw [if_pos rfl]
          by_cases hlen : k < l.length
          · rw [he, getS_set_self _ _ _ (by rw [List.length_set]; omega)]
            rfl
          · have h0 := hlive k (by omega) (by omega)
            rw [getS_eq_raw_of_le _ _ (by omega)] at h0
            exact absurd h0 (by simp [Slot.isLive])
      · cases inval with
        | false =>
          rw [if_neg (by simp), getS_set_ne _ _ _ _ (by omega)]
          exact hlive k (by omega) (by omega)
        | true =>
          rw [if_pos rfl, getS_set_ne _ _ _ _ (fun e => hne e.symm),
            getS_set_ne _ _ _ _ (by omega)]
          exact hlive k (by omega) (by omega)
    rcases Nat.lt_or_ge dfirst j with hgt | hge
    · exact moveForwardCnt_live inval n L2 (first + 1) (dfirst + 1) (by omega) hL2live
        j (by omega) (by omega)
    · have hje : j = dfirst := by omega
      rw [getS_moveForwardCnt_outside inval n L2 (first + 1) (dfirst + 1) j (by omega)
        (by omega), hje, hL2]
      by_cases hlen : dfirst < l.length
      · rcases eq_or_ne dfirst first with he | hne
        · cases inval with
          | false =>
            rw [if_neg (by simp), getS_set_self _ _ _ hlen]
            exact hvlive
          | true =>
            rw [if_pos rfl, he, getS_set_self _ _ _ (by rw [List.length_set]; omega)]
            rfl
        · cases inval with
          | false =>
            rw [if_neg (by simp), getS_set_self _ _ _ hlen]
            exact hvlive
          | true =>
            rw [if_pos rfl, getS_set_ne _ _ _ _ (fun e => hne e.symm),
              getS_set_self _ _ _ hlen]
            exact hvlive
      · have h0 := hlive dfirst (by omega) (by omega)
        rw [getS_eq_raw_of_le _ _ (by omega)] at h0
        exact absurd h0 (by simp [Slot.isLive])

theorem moveForwardStd_live {α : Type u} (inval : Bool) :
    ∀ (fuel : Nat) (l : List (Slot α)) (first last dfirst : Nat), last - first = fuel →
      dfirst ≤ first →
      (∀ j, dfirst ≤ j → j < last → (getS l j).isLive = true) →
      ∀ j, dfirst ≤ j → j < last →
        (getS (moveForwardStd inval l first last dfirst) j).isLive = true := by
  intro fuel l first last dfirst hf hd hlive j hj1 hj2
  show (getS (moveForwardCnt inval (last - first) l first dfirst) j).isLive = true
  rcases le_or_lt first last with hle | hlt
  · exact moveForwardCnt_live inval (last - first) l first dfirst hd
      (fun k hk1 hk2 => hlive k hk1 (by omega)) j hj1 (by omega)
  · rw [show last - first = 0 by omega]
    exact hlive j hj1 hj2

theorem vecInv_iff_invB {α : Type u} (v : Vec α) : VecInv v ↔ invB v = true := by
  unfold VecInv invB
  rw [Bool.and_eq_true, decide_eq_true_iff, List.all_eq_true]
  constructor
  · rintro ⟨h1, h2, h3⟩
    refine ⟨h1, ?_⟩
    intro i hi
    by_cases hlt : i < v.size
    · simp [hlt, h2 i hlt]
    · simp [hlt, h3 i (Nat.le_of_not_lt hlt)]
  · rintro ⟨h1, h2⟩
    refine ⟨h1, ?_, ?_⟩
    · intro i hi
      have hm := h2 i (List.mem_range.mpr (lt_of_lt_of_le hi h1))
      simpa [hi] using hm
    · intro i hi
      by_cases hlen : i < v.cells.length
      · have hm := h2 i (List.mem_range.mpr hlen)
        have hlt : ¬ i < v.size := by omega
        simpa [hlt] using hm
      · rw [getS_eq_raw_of_le _ _ (Nat.le_of_not_lt hlen)]
        rfl

/-! ## Lemmas about the Vector operations -/

theorem reserve_cells_realloc {α : Type u} (tc : Traits α) (v : Vec α) (n : Nat)
    (h : ¬ n ≤ v.capacity) :
    (reserve tc v n).cells = uninitCopyN v.cells 0 v.size (List.replicate n .raw) 0 := by
  by_cases hm : (tc.nothrowMove || !tc.copyCtor) = true
  · simp only [reserve, if_neg h, if_pos hm, uninitMoveN_snd]
  · simp only [reserve, if_neg h, if_neg hm]

theorem reserve_size {α : Type u} (tc : Traits α) (v : Vec α) (n : Nat) :
    (reserve tc v n).size = v.size := by
  unfold reserve
  split <;> rfl

theorem reserve_capacity {α : Type u} (tc : Traits α) (v : Vec α) (n : Nat) :
    (reserve tc v n).capacity = max v.capacity n := by
  by_cases h : n ≤ v.capacity
  · unfold reserve
    rw [if_pos h]
    omega
  · show (reserve tc v n).cells.length = _
    rw [reserve_cells_realloc tc v n h]
    unfold uninitCopyN
    rw [fillN_length, List.length_replicate]
    unfold Vec.capacity at h ⊢
    omega

theorem getS_reserve_of_lt {α : Type u} (tc : Traits α) (v : Vec α) (n i : Nat)
    (hs : v.size ≤ v.capacity) (hi : i < v.size) :
    getS (reserve tc v n).cells i = getS v.cells i := by
  by_cases h : n ≤ v.capacity
  · unfold reserve
    rw [if_pos h]
  · have hcap : v.cells.length < n := by
      unfold Vec.capacity at h
      omega
    have hs2 : v.size ≤ v.cells.length := hs
    rw [reserve_cells_realloc tc v n h]
    unfold uninitCopyN
    rw [getS_fillN_in _ _ _ _ _ (by omega) (by omega) (by rw [List.length_replicate]; omega),
      show 0 + i - 0 = i by omega]

theorem vecInv_reserve {α : Type u} (tc : Traits α) (v : Vec α) (n : Nat)
    (h : VecInv v) : VecInv (reserve tc v n) := by
  by_cases hn : n ≤ v.capacity
  · unfold reserve
    rw [if_pos hn]
    exact h
  · obtain ⟨h1, h2, h3⟩ := h
    have hcap : v.cells.length < n := by
      unfold Vec.capacity at hn
      omega
    refine ⟨?_, ?_, ?_⟩
    · rw [reserve_size, reserve_cells_realloc _ _ _ hn]
      unfold uninitCopyN
      rw [fillN_length, List.length_replicate]
      omega
    · intro i hi
      rw [reserve_size] at hi
      rw [reserve_cells_realloc _ _ _ hn]
      unfold uninitCopyN
      rw [getS_fillN_in _ _ _ _ _ (by omega) (by omega) (by rw [List.length_replicate]; omega),
        show 0 + i - 0 = i by omega]
      exact h2 i hi
    · intro i hi
      rw [reserve_size] at hi
      rw [reserve_cells_realloc _ _ _ hn]
      unfold uninitCopyN
      rw [getS_fillN_out _ _ _ _ _ (by omega), getS_replicate]
      rfl

theorem mkVectorSized_size {α : Type u} (tc : Traits α) (n : Nat) :
    (mkVectorSized tc n).size = n := rfl

theorem getS_mkVectorSized {α : Type u} (tc : Traits α) (n i : Nat) (hi : i < n) :
    getS (mkVectorSized tc n).cells i = .val tc.valueInit := by
  show getS (uninitValueConstructN tc.valueInit (List.replicate n .raw) 0 n) i = _
  unfold uninitValueConstructN
  rw [getS_fillN_in _ _ _ _ _ (by omega) (by omega) (by rw [List.length_replicate]; omega)]

theorem vecInv_mkVectorSized {α : Type u} (tc : Traits α) (n : Nat) :
    VecInv (mkVectorSized tc n) := by
  refine ⟨?_, ?_, ?_⟩
  · show n ≤ (uninitValueConstructN tc.valueInit (List.replicate n .raw) 0 n).length
    unfold uninitValueConstructN
    rw [fillN_length, List.length_replicate]
  · intro i hi
    have hi2 : i < n := hi
    rw [getS_mkVectorSized tc n i hi2]
    rfl
  · intro i hi
    have hi2 : n ≤ i := hi
    show (getS (uninitValueConstructN tc.valueInit (List.replicate n .raw) 0 n) i).isLive = false
    unfold uninitValueConstructN
    rw [getS_fillN_out _ _ _ _ _ (by right; omega), getS_replicate]
    rfl

theorem vectorCopy_size {α : Type u} (w : Vec α) : (vectorCopy w).size = w.size := rfl

theorem getS_vectorCopy {α : Type u} (w : Vec α) (i : Nat) (hi : i < w.size) :
    getS (vectorCopy w).cells i = getS w.cells i := by
  show getS (uninitCopyN w.cells 0 w.size (List.replicate w.size .raw) 0) i = _
  unfold uninitCopyN
  rw [getS_fillN_in _ _ _ _ _ (by omega) (by omega) (by rw [List.length_replicate]; omega),
    show 0 + i - 0 = i by omega]

theorem vecInv_vectorCopy {α : Type u} (w : Vec α) (h : VecInv w) :
    VecInv (vectorCopy w) := by
  obtain ⟨h1, h2, h3⟩ := h
  refine ⟨?_, ?_, ?_⟩
  · show w.size ≤ (uninitCopyN w.cells 0 w.size (List.replicate w.size .raw) 0).length
    unfold uninitCopyN
    rw [fillN_length, List.length_replicate]
  · intro i hi
    have hi2 : i < w.size := hi
    rw [getS_vectorCopy w i hi2]
    exact h2 i hi2
  · intro i hi
    have hi2 : w.size ≤ i := hi
    show (getS (uninitCopyN w.cells 0 w.size (List.replicate w.size .raw) 0) i).isLive = false
    unfold uninitCopyN
    rw [getS_fillN_out _ _ _ _ _ (by right; omega), getS_replicate]
    rfl

theorem vecInv_popBack {α : Type u} (v : Vec α) (h : VecInv v) : VecInv (popBack v) := by
  obtain ⟨h1, h2, h3⟩ := h
  unfold popBack
  split
  · next h0 =>
    refine ⟨?_, ?_, ?_⟩
    · show v.size - 1 ≤ (v.cells.set (v.size - 1) .raw).length
      rw [List.length_set]
      omega
    · intro i hi
      have hi2 : i < v.size - 1 := hi
      show (getS (v.cells.set (v.size - 1) .raw) i).isLive = true
      rw [getS_set_ne _ _ _ _ (by omega)]
      exact h2 i (by omega)
    · intro i hi
      have hi2 : v.size - 1 ≤ i := hi
      show (getS (v.cells.set (v.size - 1) .raw) i).isLive = false
      rcases eq_or_ne (v.size - 1) i with he | hne
      · rw [← he, getS_set_self _ _ _ (by omega)]
        rfl
      · rw [getS_set_ne _ _ _ _ hne]
        exact h3 i (by omega)
  · exact ⟨h1, h2, h3⟩

theorem emplaceBackF_none {α : Type u} (tc : Traits α) (v : Vec α) :
    emplaceBackF tc none v = .error v := by
  unfold emplaceBackF
  split <;> rfl

theorem emplaceBack_cells_realloc {α : Type u} (tc : Traits α) (a : α) (v : Vec α)
    (hfull : v.size = v.capacity) :
    (emplaceBack tc a v).cells =
      uninitCopyN v.cells 0 v.size
        ((List.replicate (if v.size = 0 then 1 else v.size * 2) (Slot.raw : Slot α)).set
          v.size (.val a)) 0 := by
  by_cases hm : (tc.nothrowMove || !tc.copyCtor) = true
  · simp only [emplaceBack, runState, emplaceBackF, if_pos hfull, if_pos hm, uninitMoveN_snd]
  · simp only [emplaceBack, runState, emplaceBackF, if_pos hfull, if_neg hm]

theorem emplaceBack_cells_norealloc {α : Type u} (tc : Traits α) (a : α) (v : Vec α)
    (hfull : ¬ v.size = v.capacity) :
    (emplaceBack tc a v).cells = v.cells.set v.size (.val a) := by
  simp only [emplaceBack, runState, emplaceBackF, if_neg hfull]

theorem emplaceBack_size {α : Type u} (tc : Traits α) (a : α) (v : Vec α) :
    (emplaceBack tc a v).size = v.size + 1 := by
  unfold emplaceBack runState emplaceBackF
  by_cases hfull : v.size = v.capacity
  · by_cases hm : (tc.nothrowMove || !tc.copyCtor) = true
    · simp only [if_pos hfull, if_pos hm]
    · simp only [if_pos hfull, if_neg hm]
  · simp only [if_neg hfull]

theorem getS_emplaceBack_old {α : Type u} (tc : Traits α) (a : α) (v : Vec α) (i : Nat)
    (hi : i < v.size) :
    getS (emplaceBack tc a v).cells i = getS v.cells i := by
  by_cases hfull : v.size = v.capacity
  · rw [emplaceBack_cells_realloc tc a v hfull]
    unfold uninitCopyN
    rw [getS_fillN_in _ _ _ _ _ (by omega) (by omega)
      (by rw [List.length_set, List.length_replicate]; split <;> omega),
      show 0 + i - 0 = i by omega]
  · rw [emplaceBack_cells_norealloc tc a v hfull, getS_set_ne _ _ _ _ (by omega)]

theorem getS_emplaceBack_new {α : Type u} (tc : Traits α) (a : α) (v : Vec α)
    (hs : v.size ≤ v.capacity) :
    getS (emplaceBack tc a v).cells v.size = .val a := by
  by_cases hfull : v.size = v.capacity
  · rw [emplaceBack_cells_realloc tc a v hfull]
    unfold uninitCopyN
    rw [getS_fillN_out _ _ _ _ _ (by omega),
      getS_set_self _ _ _ (by rw [List.length_replicate]; split <;> omega)]
  · have hlen : v.size < v.cells.length := by
      unfold Vec.capacity at hfull hs
      omega
    rw [emplaceBack_cells_norealloc tc a v hfull, getS_set_self _ _ _ hlen]

theorem emplaceBack_capacity_realloc {α : Type u} (tc : Traits α) (a : α) (v : Vec α)
    (hfull : v.size = v.capacity) :
    (emplaceBack tc a v).capacity = if v.size = 0 then 1 else v.size * 2 := by
  show (emplaceBack tc a v).cells.length = _
  rw [emplaceBack_cells_realloc tc a v hfull]
  unfold uninitCopyN
  rw [fillN_length, List.length_set, List.length_replicate]

theorem vecInv_emplaceBack {α : Type u} (tc : Traits α) (a : α) (v : Vec α)
    (h : VecInv v) : VecInv (emplaceBack tc a v) := by
  obtain ⟨h1, h2, h3⟩ := h
  by_cases hfull : v.size = v.capacity
  · refine ⟨?_, ?_, ?_⟩
    · have hc : (emplaceBack tc a v).cells.length = if v.size = 0 then 1 else v.size * 2 :=
        emplaceBack_capacity_realloc tc a v hfull
      rw [emplaceBack_size, hc]
      split <;> omega
    · intro i hi
      rw [emplaceBack_size] at hi
      rcases Nat.lt_or_ge i v.size with hlt | hge
      · rw [getS_emplaceBack_old tc a v i hlt]
        exact h2 i hlt
      · have he : i = v.size := by omega
        rw [he, getS_emplaceBack_new tc a v (by omega)]
        rfl
    · intro i hi
      rw [emplaceBack_size] at hi
      rw [emplaceBack_cells_realloc tc a v hfull]
      unfold uninitCopyN
      rw [getS_fillN_out _ _ _ _ _ (by omega), getS_set_ne _ _ _ _ (by omega), getS_replicate]
      rfl
  · have hlt : v.size < v.cells.length := by
      unfold Vec.capacity at hfull
      omega
    refine ⟨?_, ?_, ?_⟩
    · rw [emplaceBack_size, emplaceBack_cells_norealloc tc a v hfull, List.length_set]
      omega
    · intro i hi
      rw [emplaceBack_size] at hi
      rcases Nat.lt_or_ge i v.size with hl | hg
      · rw [getS_emplaceBack_old tc a v i hl]
        exact h2 i hl
      · have he : i = v.size := by omega
        rw [he, getS_emplaceBack_new tc a v (by unfold Vec.capacity; omega)]
        rfl
    · intro i hi
      rw [emplaceBack_size] at hi
      rw [emplaceBack_cells_norealloc tc a v hfull, getS_set_ne _ _ _ _ (by omega)]
      exact h3 i (by omega)

theorem emplaceF_none_full {α : Type u} (tc : Traits α) (v : Vec α) (shift : Nat)
    (hfull : v.size = v.capacity) :
    emplaceF tc none v shift = .error v := by
  unfold emplaceF
  rw [if_pos hfull]

theorem emplace_cells_realloc {α : Type u} (tc : Traits α) (v : Vec α) (shift : Nat) (a : α)
    (hfull : v.size = v.capacity) :
    (emplace tc v shift a).cells =
      uninitCopyN v.cells shift (v.size - shift)
        (uninitCopyN v.cells 0 shift
          ((List.replicate (if v.size = 0 then 1 else v.size * 2) (Slot.raw : Slot α)).set
            shift (.val a)) 0)
        (shift + 1) := by
  by_cases hm : (tc.nothrowMove || !tc.copyCtor) = true
  · simp only [emplace, runState, emplaceF, if_pos hfull, if_pos hm, uninitMoveN_snd]
    apply uninitCopyN_congr_src
    intro k hk
    exact uninitMoveN_fst_outside _ _ _ _ _ _ _ (by omega)
  · simp only [emplace, runState, emplaceF, if_pos hfull, if_neg hm]

theorem emplace_cells_norealloc {α : Type u} (tc : Traits α) (v : Vec α) (shift : Nat) (a : α)
    (hfull : ¬ v.size = v.capacity) (hz : v.size ≠ 0) :
    (emplace tc v shift a).cells =
      ((moveBackwardStd tc.moveInvalidates
          (if tc.moveInvalidates then
            (v.cells.set v.size (getS v.cells (v.size - 1))).set (v.size - 1) Slot.moved
          else v.cells.set v.size (getS v.cells (v.size - 1)))
          shift v.size (v.size + 1)).set shift .raw).set shift (.val a) := by
  simp only [emplace, runState, emplaceF, if_neg hfull, if_pos hz]

theorem emplace_cells_norealloc_zero {α : Type u} (tc : Traits α) (v : Vec α) (shift : Nat)
    (a : α) (hfull : ¬ v.size = v.capacity) (hz : ¬ v.size ≠ 0) :
    (emplace tc v shift a).cells = v.cells.set shift (.val a) := by
  simp only [emplace, runState, emplaceF, if_neg hfull, if_neg hz]

theorem emplace_size {α : Type u} (tc : Traits α) (v : Vec α) (shift : Nat) (a : α) :
    (emplace tc v shift a).size = v.size + 1 := by
  by_cases hfull : v.size = v.capacity
  · by_cases hm : (tc.nothrowMove || !tc.copyCtor) = true
    · simp only [emplace, runState, emplaceF, if_pos hfull, if_pos hm]
    · simp only [emplace, runState, emplaceF, if_pos hfull, if_neg hm]
  · simp only [emplace, runState, emplaceF, if_neg hfull]

theorem getS_emplace_realloc_front {α : Type u} (tc : Traits α) (v : Vec α)
    (shift : Nat) (a : α) (i : Nat) (hfull : v.size = v.capacity) (hshift : shift ≤ v.size)
    (hi : i < shift) :
    getS (emplace tc v shift a).cells i = getS v.cells i := by
  rw [emplace_cells_realloc tc v shift a hfull]
  unfold uninitCopyN
  rw [getS_fillN_out _ _ _ _ _ (by omega),
    getS_fillN_in _ _ _ _ _ (by omega) (by omega)
      (by rw [List.length_set, List.length_replicate]; split <;> omega),
    show 0 + i - 0 = i by omega]

theorem getS_emplace_realloc_new {α : Type u} (tc : Traits α) (v : Vec α)
    (shift : Nat) (a : α) (hfull : v.size = v.capacity) (hshift : shift ≤ v.size) :
    getS (emplace tc v shift a).cells shift = .val a := by
  rw [emplace_cells_realloc tc v shift a hfull]
  unfold uninitCopyN
  rw [getS_fillN_out _ _ _ _ _ (by omega), getS_fillN_out _ _ _ _ _ (by omega),
    getS_set_self _ _ _ (by rw [List.length_replicate]; split <;> omega)]

theorem getS_emplace_realloc_suffix {α : Type u} (tc : Traits α) (v : Vec α)
    (shift : Nat) (a : α) (i : Nat) (hfull : v.size = v.capacity) (hshift : shift ≤ v.size)
    (hi1 : shift ≤ i) (hi2 : i < v.size) :
    getS (emplace tc v shift a).cells (i + 1) = getS v.cells i := by
  rw [emplace_cells_realloc tc v shift a hfull]
  unfold uninitCopyN
  rw [getS_fillN_in _ _ _ _ _ (by omega) (by omega)
      (by rw [fillN_length, List.length_set, List.length_replicate]; split <;> omega),
    show shift + (i + 1) - (shift + 1) = i by omega]

theorem getS_emplace_realloc_high {α : Type u} (tc : Traits α) (v : Vec α)
    (shift : Nat) (a : α) (i : Nat) (hfull : v.size = v.capacity) (hshift : shift ≤ v.size)
    (hi : v.size + 1 ≤ i) :
    getS (emplace tc v shift a).cells i = .raw := by
  rw [emplace_cells_realloc tc v shift a hfull]
  unfold uninitCopyN
  rw [getS_fillN_out _ _ _ _ _ (by omega), getS_fillN_out _ _ _ _ _ (by omega),
    getS_set_ne _ _ _ _ (by omega), getS_replicate]

theorem emplace_capacity_realloc {α : Type u} (tc : Traits α) (v : Vec α) (shift : Nat)
    (a : α) (hfull : v.size = v.capacity) :
    (emplace tc v shift a).capacity = if v.size = 0 then 1 else v.size * 2 := by
  show (emplace tc v shift a).cells.length = _
  rw [emplace_cells_realloc tc v shift a hfull]
  unfold uninitCopyN
  rw [fillN_length, fillN_length, List.length_set, List.length_replicate]

theorem vecInv_emplace {α : Type u} (tc : Traits α) (v : Vec α) (shift : Nat) (a : α)
    (h : VecInv v) (hshift : shift ≤ v.size) : VecInv (emplace tc v shift a) := by
  obtain ⟨h1, h2, h3⟩ := h
  by_cases hfull : v.size = v.capacity
  · refine ⟨?_, ?_, ?_⟩
    · have hc : (emplace tc v shift a).cells.length = if v.size = 0 then 1 else v.size * 2 :=
        emplace_capacity_realloc tc v shift a hfull
      rw [emplace_size, hc]
      split <;> omega
    · intro i hi
      rw [emplace_size] at hi
      rcases Nat.lt_or_ge i shift with hlt | hge
      · rw [getS_emplace_realloc_front tc v shift a i hfull hshift hlt]
        exact h2 i (by omega)
      · rcases eq_or_ne i shift with he | hne
        · rw [he, getS_emplace_realloc_new tc v shift a hfull hshift]
          rfl
        · have hi2 : i - 1 < v.size := by omega
          have he2 : i = (i - 1) + 1 := by omega
          rw [he2, getS_emplace_realloc_suffix tc v shift a (i - 1) hfull hshift
            (by omega) hi2]
          exact h2 (i - 1) hi2
    · intro i hi
      rw [emplace_size] at hi
      rw [getS_emplace_realloc_high tc v shift a i hfull hshift (by omega)]
      rfl
  · have hcap : v.size < v.cells.length := by
      unfold Vec.capacity at hfull
      omega
    by_cases hz : v.size ≠ 0
    · set AL := (if tc.moveInvalidates then
            (v.cells.set v.size (getS v.cells (v.size - 1))).set (v.size - 1) Slot.moved
          else v.cells.set v.size (getS v.cells (v.size - 1))) with hAL
      have hALlen : AL.length = v.cells.length := by
        rw [hAL]
        cases tc.moveInvalidates with
        | false => rw [if_neg (by simp), List.length_set]
        | true => rw [if_pos rfl, List.length_set, List.length_set]
      have hALlive : ∀ j, j ≤ v.size → (getS AL j).isLive = true := by
        intro j hj
        rw [hAL]
        rcases eq_or_ne j v.size with hje | hjne
        · cases tc.moveInvalidates with
          | false =>
            rw [if_neg (by simp), hje, getS_set_self _ _ _ hcap]
            exact h2 (v.size - 1) (by omega)
          | true =>
            rw [if_pos rfl, getS_set_ne _ _ _ _ (by omega), hje,
              getS_set_self _ _ _ hcap]
            exact h2 (v.size - 1) (by omega)
        · cases tc.moveInvalidates with
          | false =>
            rw [if_neg (by simp), getS_set_ne _ _ _ _ (by omega)]
            exact h2 j (by omega)
          | true =>
            rcases eq_or_ne j (v.size - 1) with hj1 | hj1
            · rw [if_pos rfl, hj1, getS_set_self _ _ _ (by rw [List.length_set]; omega)]
              rfl
            · rw [if_pos rfl, getS_set_ne _ _ _ _ (fun e => hj1 e.symm),
                getS_set_ne _ _ _ _ (by omega)]
              exact h2 j (by omega)
      have hALhigh : ∀ j, v.size + 1 ≤ j → (getS AL j).isLive = false := by
        intro j hj
        rw [hAL]
        cases tc.moveInvalidates with
        | false =>
          rw [if_neg (by simp), getS_set_ne _ _ _ _ (by omega)]
          exact h3 j (by omega)
        | true =>
          rw [if_pos rfl, getS_set_ne _ _ _ _ (by omega), getS_set_ne _ _ _ _ (by omega)]
          exact h3 j (by omega)
      have hSlen : (moveBackwardStd tc.moveInvalidates AL shift v.size (v.size + 1)).length
          = v.cells.length := by
        rw [moveBackwardStd_length, hALlen]
      have hSlive : ∀ j, shift ≤ j → j ≤ v.size →
          (getS (moveBackwardStd tc.moveInvalidates AL shift v.size (v.size + 1)) j).isLive
            = true := by
        intro j hj1 hj2
        exact moveBackwardStd_live tc.moveInvalidates v.size AL shift (by omega)
          (fun k hk1 hk2 => hALlive k (by omega)) (hALlive v.size (by omega)) j hj1 hj2
      have hSout : ∀ t, (t < shift ∨ v.size < t) →
          getS (moveBackwardStd tc.moveInvalidates AL shift v.size (v.size + 1)) t
            = getS AL t := by
        intro t ht
        exact getS_moveBackwardStd_outside tc.moveInvalidates v.size AL shift t ht
      refine ⟨?_, ?_, ?_⟩
      · rw [emplace_size, emplace_cells_norealloc tc v shift a hfull hz, ← hAL,
          List.length_set, List.length_set, hSlen]
        omega
      · intro i hi
        rw [emplace_size] at hi
        rw [emplace_cells_norealloc tc v shift a hfull hz, ← hAL]
        rcases eq_or_ne i shift with he | hne
        · rw [he, getS_set_self _ _ _ (by rw [List.length_set, hSlen]; omega)]
          rfl
        · rw [getS_set_ne _ _ _ _ (fun e => hne e.symm),
            getS_set_ne _ _ _ _ (fun e => hne e.symm)]
          rcases Nat.lt_or_ge i shift with hlt | hge
          · rw [hSout i (Or.inl hlt)]
            exact hALlive i (by omega)
          · exact hSlive i hge (by omega)
      · intro i hi
        rw [emplace_size] at hi
        rw [emplace_cells_norealloc tc v shift a hfull hz, ← hAL,
          getS_set_ne _ _ _ _ (by omega), getS_set_ne _ _ _ _ (by omega),
          hSout i (Or.inr (by omega))]
        exact hALhigh i (by omega)
    · have hz0 : v.size = 0 := by omega
      refine ⟨?_, ?_, ?_⟩
      · rw [emplace_size, emplace_cells_norealloc_zero tc v shift a hfull hz,
          List.length_set]
        omega
      · intro i hi
        rw [emplace_size] at hi
        have hie : i = shift := by omega
        rw [emplace_cells_norealloc_zero tc v shift a hfull hz, ← hie,
          getS_set_self _ _ _ (by omega)]
        rfl
      · intro i hi
        rw [emplace_size] at hi
        rw [emplace_cells_norealloc_zero tc v shift a hfull hz,
          getS_set_ne _ _ _ _ (by omega)]
        exact h3 i (by omega)

theorem vecInv_erase {α : Type u} (tc : Traits α) (v : Vec α) (index : Nat)
    (h : VecInv v) (hidx : index < v.size) : VecInv (erase tc v index) := by
  obtain ⟨h1, h2, h3⟩ := h
  unfold erase
  apply vecInv_popBack
  have hlen : (moveForwardStd tc.moveInvalidates v.cells (index + 1) v.size index).length
      = v.cells.length :=
    moveForwardStd_length tc.moveInvalidates (v.size - (index + 1)) v.cells
      (index + 1) v.size index rfl
  refine ⟨?_, ?_, ?_⟩
  · show v.size ≤ _
    rw [hlen]
    exact h1
  · intro i hi
    have hi2 : i < v.size := hi
    show (getS (moveForwardStd tc.moveInvalidates v.cells (index + 1) v.size index) i).isLive
      = true
    rcases Nat.lt_or_ge i index with hlt | hge
    · rw [getS_moveForwardStd_outside tc.moveInvalidates (v.size - (index + 1)) v.cells
        (index + 1) v.size index i rfl (by omega) (by omega)]
      exact h2 i hi2
    · exact moveForwardStd_live tc.moveInvalidates (v.size - (index + 1)) v.cells
        (index + 1) v.size index rfl (by omega)
        (fun j hj1 hj2 => h2 j hj2) i hge hi2
  · intro i hi
    have hi2 : v.size ≤ i := hi
    show (getS (moveForwardStd tc.moveInvalidates v.cells (index + 1) v.size index) i).isLive
      = false
    rw [getS_moveForwardStd_outside tc.moveInvalidates (v.size - (index + 1)) v.cells
      (index + 1) v.size index i rfl (by omega) (by omega)]
    exact h3 i hi2

theorem resize_size {α : Type u} (tc : Traits α) (v : Vec α) (n : Nat) :
    (resize tc v n).size = n := by
  unfold resize
  split <;> rfl

theorem getS_resize_new {α : Type u} (tc : Traits α) (v : Vec α) (n i : Nat)
    (hi1 : v.size ≤ i) (hi2 : i < n) :
    getS (resize tc v n).cells i = .val tc.valueInit := by
  have hns : ¬ n < v.size := by omega
  have hlen : (reserve tc v n).cells.length = max v.capacity n := reserve_capacity tc v n
  have hsize : (reserve tc v n).size = v.size := reserve_size tc v n
  unfold resize
  rw [if_neg hns]
  show getS (uninitValueConstructN tc.valueInit (reserve tc v n).cells (reserve tc v n).size
    (n - (reserve tc v n).size)) i = _
  unfold uninitValueConstructN
  rw [getS_fillN_in _ _ _ _ _ (by omega) (by omega) (by omega)]

theorem vecInv_resize {α : Type u} (tc : Traits α) (v : Vec α) (n : Nat)
    (h : VecInv v) : VecInv (resize tc v n) := by
  obtain ⟨h1, h2, h3⟩ := h
  by_cases hlt : n < v.size
  · unfold resize
    rw [if_pos hlt]
    refine ⟨?_, ?_, ?_⟩
    · show n ≤ (destroyN v.cells n (v.size - n)).length
      unfold destroyN
      rw [fillN_length]
      omega
    · intro i hi
      have hi2 : i < n := hi
      show (getS (destroyN v.cells n (v.size - n)) i).isLive = true
      unfold destroyN
      rw [getS_fillN_out _ _ _ _ _ (by omega)]
      exact h2 i (by omega)
    · intro i hi
      have hi2 : n ≤ i := hi
      show (getS (destroyN v.cells n (v.size - n)) i).isLive = false
      unfold destroyN
      rcases Nat.lt_or_ge i v.size with hiv | hiv
      · rw [getS_fillN_in _ _ _ _ _ (by omega) (by omega) (by omega)]
        rfl
      · rw [getS_fillN_out _ _ _ _ _ (by omega)]
        exact h3 i hiv
  · have hres : VecInv (reserve tc v n) := vecInv_reserve tc v n ⟨h1, h2, h3⟩
    obtain ⟨r1, r2, r3⟩ := hres
    have hlen : (reserve tc v n).cells.length = max v.capacity n := reserve_capacity tc v n
    have hsize : (reserve tc v n).size = v.size := reserve_size tc v n
    have hcap : v.capacity = v.cells.length := rfl
    unfold resize
    rw [if_neg hlt]
    refine ⟨?_, ?_, ?_⟩
    · show n ≤ (uninitValueConstructN tc.valueInit (reserve tc v n).cells
        (reserve tc v n).size (n - (reserve tc v n).size)).length
      unfold uninitValueConstructN
      rw [fillN_length]
      omega
    · intro i hi
      have hi2 : i < n := hi
      show (getS (uninitValueConstructN tc.valueInit (reserve tc v n).cells
        (reserve tc v n).size (n - (reserve tc v n).size)) i).isLive = true
      unfold uninitValueConstructN
      rcases Nat.lt_or_ge i v.size with hiv | hiv
      · rw [getS_fillN_out _ _ _ _ _ (by omega)]
        exact r2 i (by omega)
      · rw [getS_fillN_in _ _ _ _ _ (by omega) (by omega) (by omega)]
        rfl
    · intro i hi
      have hi2 : n ≤ i := hi
      show (getS (uninitValueConstructN tc.valueInit (reserve tc v n).cells
        (reserve tc v n).size (n - (reserve tc v n).size)) i).isLive = false
      unfold uninitValueConstructN
      rw [getS_fillN_out _ _ _ _ _ (by omega)]
      exact r3 i (by omega)

theorem copyAssignF_none_ok {α : Type u} (v w : Vec α) :
    copyAssignF none false v w = .ok (copyAssign false v w, w) := by
  by_cases h1 : v.capacity < w.size
  · simp only [copyAssign, copyAssignF, if_neg (by simp : ¬ (false = true)), if_pos h1]
  · by_cases h2 : w.size < v.size
    · simp only [copyAssign, copyAssignF, if_neg (by simp : ¬ (false = true)), if_neg h1,
        if_pos h2]
    · simp only [copyAssign, copyAssignF, if_neg (by simp : ¬ (false = true)), if_neg h1,
        if_neg h2]

theorem copyAssign_cells_temp {α : Type u} (v w : Vec α) (h1 : v.capacity < w.size) :
    copyAssign false v w = vectorCopy w := by
  simp only [copyAssign, copyAssignF, if_neg (by simp : ¬ (false = true)), if_pos h1]

theorem copyAssign_cells_shrink {α : Type u} (v w : Vec α) (h1 : ¬ v.capacity < w.size)
    (h2 : w.size < v.size) :
    copyAssign false v w =
      { cells := destroyN (copyRange w.cells 0 w.size v.cells 0) w.size (v.size - w.size),
        size := w.size } := by
  simp only [copyAssign, copyAssignF, if_neg (by simp : ¬ (false = true)), if_neg h1, if_pos h2]

theorem copyAssign_cells_grow {α : Type u} (v w : Vec α) (h1 : ¬ v.capacity < w.size)
    (h2 : ¬ w.size < v.size) :
    copyAssign false v w =
      { cells := uninitCopyN w.cells v.size (w.size - v.size)
          (copyRange w.cells 0 v.size v.cells 0) v.size,
        size := w.size } := by
  simp only [copyAssign, copyAssignF, if_neg (by simp : ¬ (false = true)), if_neg h1, if_neg h2]

theorem copyAssign_size {α : Type u} (v w : Vec α) :
    (copyAssign false v w).size = w.size := by
  by_cases h1 : v.capacity < w.size
  · rw [copyAssign_cells_temp v w h1]
    rfl
  · by_cases h2 : w.size < v.size
    · rw [copyAssign_cells_shrink v w h1 h2]
    · rw [copyAssign_cells_grow v w h1 h2]

theorem getS_copyAssign {α : Type u} (v w : Vec α) (i : Nat) (hi : i < w.size) :
    getS (copyAssign false v w).cells i = getS w.cells i := by
  by_cases h1 : v.capacity < w.size
  · rw [copyAssign_cells_temp v w h1]
    exact getS_vectorCopy w i hi
  · have hcap : w.size ≤ v.cells.length := by
      unfold Vec.capacity at h1
      omega
    by_cases h2 : w.size < v.size
    · rw [copyAssign_cells_shrink v w h1 h2]
      show getS (destroyN (copyRange w.cells 0 w.size v.cells 0) w.size (v.size - w.size)) i
        = _
      unfold destroyN copyRange
      rw [getS_fillN_out _ _ _ _ _ (by omega),
        getS_fillN_in _ _ _ _ _ (by omega) (by omega) (by omega),
        show 0 + i - 0 = i by omega]
    · rw [copyAssign_cells_grow v w h1 h2]
      show getS (uninitCopyN w.cells v.size (w.size - v.size)
        (copyRange w.cells 0 v.size v.cells 0) v.size) i = _
      unfold uninitCopyN copyRange
      rcases Nat.lt_or_ge i v.size with hiv | hiv
      · rw [getS_fillN_out _ _ _ _ _ (by omega),
          getS_fillN_in _ _ _ _ _ (by omega) (by omega) (by omega),
          show 0 + i - 0 = i by omega]
      · rw [getS_fillN_in _ _ _ _ _ (by omega) (by omega) (by rw [fillN_length]; omega),
          show v.size + i - v.size = i by omega]

theorem copyAssignF_realloc_error {α : Type u} (v w : Vec α) (k : Nat)
    (h1 : v.capacity < w.size) (hk : k < w.size) :
    copyAssignF (some k) false v w = .error (v, w) := by
  simp only [copyAssignF, if_neg (by simp : ¬ (false = true)), if_pos h1, if_pos hk]

theorem copyAssignF_reuse_error {α : Type u} (v w : Vec α) (k : Nat)
    (h1 : ¬ v.capacity < w.size) (hk1 : k < w.size) (hk2 : k < v.size) :
    copyAssignF (some k) false v w =
      .error ({ cells := copyRange w.cells 0 k v.cells 0, size := v.size }, w) := by
  by_cases h2 : w.size < v.size
  · simp only [copyAssignF, if_neg (by simp : ¬ (false = true)), if_neg h1, if_pos h2,
      if_pos hk1]
  · simp only [copyAssignF, if_neg (by simp : ¬ (false = true)), if_neg h1, if_neg h2,
      if_pos hk2]

theorem getS_copyRange_prefix_in {α : Type u} (w : Vec α) (cells : List (Slot α))
    (k i : Nat) (hi : i < k) (hlen : i < cells.length) :
    getS (copyRange w.cells 0 k cells 0) i = getS w.cells i := by
  unfold copyRange
  rw [getS_fillN_in _ _ _ _ _ (by omega) (by omega) (by omega),
    show 0 + i - 0 = i by omega]

theorem getS_copyRange_prefix_out {α : Type u} (w : Vec α) (cells : List (Slot α))
    (k i : Nat) (hi : k ≤ i) :
    getS (copyRange w.cells 0 k cells 0) i = getS cells i := by
  unfold copyRange
  rw [getS_fillN_out _ _ _ _ _ (by omega)]

theorem vecInv_copyAssign_ok {α : Type u} (v w : Vec α) (hv : VecInv v) (hw : VecInv w) :
    VecInv (copyAssign false v w) := by
  obtain ⟨hv1, hv2, hv3⟩ := hv
  obtain ⟨hw1, hw2, hw3⟩ := hw
  by_cases h1 : v.capacity < w.size
  · rw [copyAssign_cells_temp v w h1]
    exact vecInv_vectorCopy w ⟨hw1, hw2, hw3⟩
  · have hcap : w.size ≤ v.cells.length := by
      unfold Vec.capacity at h1
      omega
    have hsz : (copyAssign false v w).size = w.size := copyAssign_size v w
    refine ⟨?_, ?_, ?_⟩
    · rw [hsz]
      by_cases h2 : w.size < v.size
      · rw [copyAssign_cells_shrink v w h1 h2]
        show w.size ≤ (destroyN (copyRange w.cells 0 w.size v.cells 0) w.size
          (v.size - w.size)).length
        unfold destroyN copyRange
        rw [fillN_length, fillN_length]
        omega
      · rw [copyAssign_cells_grow v w h1 h2]
        show w.size ≤ (uninitCopyN w.cells v.size (w.size - v.size)
          (copyRange w.cells 0 v.size v.cells 0) v.size).length
        unfold uninitCopyN copyRange
        rw [fillN_length, fillN_length]
        omega
    · intro i hi
      rw [hsz] at hi
      rw [getS_copyAssign v w i hi]
      exact hw2 i hi
    · intro i hi
      rw [hsz] at hi
      by_cases h2 : w.size < v.size
      · rw [copyAssign_cells_shrink v w h1 h2]
        show (getS (destroyN (copyRange w.cells 0 w.size v.cells 0) w.size
          (v.size - w.size)) i).isLive = false
        unfold destroyN
        rcases Nat.lt_or_ge i v.size with hiv | hiv
        · rw [getS_fillN_in _ _ _ _ _ (by omega) (by omega)
            (by unfold copyRange; rw [fillN_length]; omega)]
          rfl
        · rw [getS_fillN_out _ _ _ _ _ (by omega),
            getS_copyRange_prefix_out w v.cells w.size i (by omega)]
          exact hv3 i hiv
      · rw [copyAssign_cells_grow v w h1 h2]
        show (getS (uninitCopyN w.cells v.size (w.size - v.size)
          (copyRange w.cells 0 v.size v.cells 0) v.size) i).isLive = false
        unfold uninitCopyN
        rw [getS_fillN_out _ _ _ _ _ (by omega),
          getS_copyRange_prefix_out w v.cells v.size i (by omega)]
        exact hv3 i (by omega)

theorem vecInv_copyAssign_reuse_error {α : Type u} (v w : Vec α) (k : Nat)
    (hv : VecInv v) (hw : VecInv w) (hk1 : k ≤ w.size) (hk2 : k ≤ v.size)
    (hcap : w.size ≤ v.capacity) :
    VecInv { cells := copyRange w.cells 0 k v.cells 0, size := v.size } := by
  obtain ⟨hv1, hv2, hv3⟩ := hv
  obtain ⟨hw1, hw2, hw3⟩ := hw
  have hlen : w.size ≤ v.cells.length := hcap
  refine ⟨?_, ?_, ?_⟩
  · show v.size ≤ (copyRange w.cells 0 k v.cells 0).length
    unfold copyRange
    rw [fillN_length]
    exact hv1
  · intro i hi
    have hi2 : i < v.size := hi
    show (getS (copyRange w.cells 0 k v.cells 0) i).isLive = true
    rcases Nat.lt_or_ge i k with hik | hik
    · rw [getS_copyRange_prefix_in w v.cells k i hik (by omega)]
      exact hw2 i (by omega)
    · rw [getS_copyRange_prefix_out w v.cells k i hik]
      exact hv2 i hi2
  · intro i hi
    have hi2 : v.size ≤ i := hi
    show (getS (copyRange w.cells 0 k v.cells 0) i).isLive = false
    rw [getS_copyRange_prefix_out w v.cells k i (by omega)]
    exact hv3 i hi2

theorem vecInv_vectorDefault {α : Type u} : VecInv (vectorDefault : Vec α) := by
  refine ⟨Nat.le_refl 0, ?_, ?_⟩
  · intro i hi
    have hi2 : i < 0 := hi
    exact absurd hi2 (by omega)
  · intro i hi
    rfl

theorem vecInv_copyAssignF {α : Type u} (failAt : Option Nat) (same : Bool) (v w : Vec α)
    (hv : VecInv v) (hw : VecInv w) :
    VecInv (runStateP (copyAssignF failAt same v w)).1 ∧
      (runStateP (copyAssignF failAt same v w)).2 = w := by
  cases same with
  | true => exact ⟨hv, rfl⟩
  | false =>
    cases failAt with
    | none =>
      rw [copyAssignF_none_ok v w]
      exact ⟨vecInv_copyAssign_ok v w hv hw, rfl⟩
    | some k =>
      by_cases h1 : v.capacity < w.size
      · by_cases hk : k < w.size
        · rw [copyAssignF_realloc_error v w k h1 hk]
          exact ⟨hv, rfl⟩
        · have he : copyAssignF (some k) false v w = .ok (vectorCopy w, w) := by
            simp only [copyAssignF, if_neg (by simp : ¬ (false = true)), if_pos h1, if_neg hk]
          rw [he]
          exact ⟨vecInv_vectorCopy w hw, rfl⟩
      · by_cases h2 : w.size < v.size
        · by_cases hk : k < w.size
          · rw [copyAssignF_reuse_error v w k h1 hk (by omega)]
            refine ⟨vecInv_copyAssign_reuse_error v w k hv hw (by omega) (by omega)
              (by omega), rfl⟩
          · have he : copyAssignF (some k) false v w = .ok (copyAssign false v w, w) := by
              simp only [copyAssignF, copyAssign, if_neg (by simp : ¬ (false = true)),
                if_neg h1, if_pos h2, if_neg hk]
            rw [he]
            exact ⟨vecInv_copyAssign_ok v w hv hw, rfl⟩
        · by_cases hk : k < v.size
          · rw [copyAssignF_reuse_error v w k h1 (by omega) hk]
            refine ⟨vecInv_copyAssign_reuse_error v w k hv hw (by omega) (by omega)
              (by omega), rfl⟩
          · by_cases hkb : k < w.size
            · have he : copyAssignF (some k) false v w =
                  .error ({ cells := copyRange w.cells 0 v.size v.cells 0,
                            size := v.size }, w) := by
                simp only [copyAssignF, if_neg (by simp : ¬ (false = true)), if_neg h1,
                  if_neg h2, if_neg hk, if_pos hkb]
              rw [he]
              refine ⟨vecInv_copyAssign_reuse_error v w v.size hv hw (by omega)
                (by omega) (by omega), rfl⟩
            · have he : copyAssignF (some k) false v w = .ok (copyAssign false v w, w) := by
                simp only [copyAssignF, copyAssign, if_neg (by simp : ¬ (false = true)),
                  if_neg h1, if_neg h2, if_neg hk, if_neg hkb]
              rw [he]
              exact ⟨vecInv_copyAssign_ok v w hv hw, rfl⟩

/-! ## Claim theorems -/

/-- C1: On every reallocating growth path the live elements are transferred
into the new block by move construction exactly when the element type is
nothrow move constructible or not copy constructible (the transfersByMove
condition written verbatim in Reserve, EmplaceBack and Emplace), and under
either strategy the transfer preserves the values.  For any vector v and
any request above its capacity (its size may be anywhere below), Reserve
keeps the size, makes the capacity exactly the request, and leaves every
live slot with its prior value.  On a full vector u (the only state in
which EmplaceBack and Emplace reallocate), a reallocating EmplaceBack
keeps the old elements at their indices and puts the new value at slot
size, and a reallocating Emplace keeps the prefix in place, puts the new
value at the insertion slot, and moves the suffix one slot up with its
values intact. -/
theorem c1_growth_transfer_rule {α : Type u} (tc : Traits α) (v u : Vec α)
    (ncap : Nat) (a : α) (shift : Nat)
    (hs : v.size ≤ v.capacity) (hcap : v.capacity < ncap)
    (hufull : u.size = u.capacity) (hshift : shift ≤ u.size) :
    (transfersByMove tc = true ↔ (tc.nothrowMove = true ∨ tc.copyCtor = false)) ∧
    (reserve tc v ncap).size = v.size ∧
    (reserve tc v ncap).capacity = ncap ∧
    (∀ i, i < v.size → getS (reserve tc v ncap).cells i = getS v.cells i) ∧
    (∀ i, i < u.size → getS (emplaceBack tc a u).cells i = getS u.cells i) ∧
    getS (emplaceBack tc a u).cells u.size = .val a ∧
    (∀ i, i < shift → getS (emplace tc u shift a).cells i = getS u.cells i) ∧
    getS (emplace tc u shift a).cells shift = .val a ∧
    (∀ i, shift ≤ i → i < u.size → getS (emplace tc u shift a).cells (i + 1) = getS u.cells i) := by
  refine ⟨?_, reserve_size tc v ncap, ?_, ?_, ?_, ?_, ?_, ?_, ?_⟩
  · unfold transfersByMove
    cases hb : tc.nothrowMove <;> cases hc : tc.copyCtor <;> simp
  · rw [reserve_capacity]
    omega
  · intro i hi
    exact getS_reserve_of_lt tc v ncap i hs hi
  · intro i hi
    exact getS_emplaceBack_old tc a u i hi
  · exact getS_emplaceBack_new tc a u (by omega)
  · intro i hi
    exact getS_emplace_realloc_front tc u shift a i hufull hshift hi
  · exact getS_emplace_realloc_new tc u shift a hufull hshift
  · intro i hi1 hi2
    exact getS_emplace_realloc_suffix tc u shift a i hufull hshift hi1 hi2

/-- C1 witness: the rule and the value preservation evaluate as stated at
a concrete Reserve on a vector of size 2 with spare capacity 3 (not full)
and a concrete Emplace on a full two-element vector. -/
theorem c1_growth_transfer_rule_witness :
    getS (reserve (⟨false, true, false, 0⟩ : Traits Nat)
      (⟨[.val 4, .val 7, .raw], 2⟩ : Vec Nat) 5).cells 0 = .val 4 ∧
    (reserve (⟨false, true, false, 0⟩ : Traits Nat)
      (⟨[.val 4, .val 7, .raw], 2⟩ : Vec Nat) 5).capacity = 5 ∧
    getS (emplace (⟨false, true, false, 0⟩ : Traits Nat)
      (⟨[.val 4, .val 7], 2⟩ : Vec Nat) 1 9).cells 1 = .val 9 := by
  have h := c1_growth_transfer_rule (⟨false, true, false, 0⟩ : Traits Nat)
    (⟨[.val 4, .val 7, .raw], 2⟩ : Vec Nat) (⟨[.val 4, .val 7], 2⟩ : Vec Nat)
    5 9 1 (by decide) (by decide) (by decide) (by decide)
  exact ⟨h.2.2.2.1 0 (by decide), h.2.2.1, h.2.2.2.2.2.2.2.1⟩

/-- C2: When EmplaceBack must reallocate (size equals capacity) and the
construction of the new element throws, the exception escapes with the
vector exactly as it was — elements, size and capacity unchanged —
because the new element is constructed into its slot of the new block
before any existing element is transferred. -/
theorem c2_emplaceBack_realloc_strong_guarantee {α : Type u} (tc : Traits α) (v : Vec α)
    (hfull : v.size = v.capacity) :
    emplaceBackF tc none v = .error v :=
  emplaceBackF_none tc v

/-- C2 witness: a full one-element vector is returned untouched when the
construction of the appended element throws. -/
theorem c2_emplaceBack_realloc_strong_guarantee_witness :
    emplaceBackF (⟨true, true, true, 0⟩ : Traits Nat) none ⟨[.val 3], 1⟩ =
      .error ⟨[.val 3], 1⟩ :=
  c2_emplaceBack_realloc_strong_guarantee (⟨true, true, true, 0⟩ : Traits Nat)
    ⟨[.val 3], 1⟩ (by decide)

/-- C3 (failing run): insert into a vector of a move-invalidating element
type with spare capacity.  Inserting 9 at slot 0 of the two-element vector
holding 1 and 2 ends with the last slot moved-from instead of holding 2,
because the in-place path move-constructs the last element into the slot
one past the end and then move_backward shifts the range including the
already-moved-out last element. -/
theorem c3_insert_corrupts_last_element :
    insert (⟨true, true, true, 0⟩ : Traits Nat) ⟨[.val 1, .val 2, .raw, .raw], 2⟩ 0 9 =
      ⟨[.val 9, .val 1, .moved, .raw], 3⟩ ∧
    getS (insert (⟨true, true, true, 0⟩ : Traits Nat)
      ⟨[.val 1, .val 2, .raw, .raw], 2⟩ 0 9).cells 2 ≠ .val 2 :=
  ⟨by decide, by decide⟩

/-- C4 (failing run): moving a RawMemory that owns the block at address 1
with capacity 5 copies the members into the target and leaves the source
still holding the same address and capacity instead of the claimed
null/zero state, so both destructors deallocate the same block; move
assignment likewise leaves the source owning, and abandons the previous
buffer of the target without deallocating it. -/
theorem c4_rawMemory_move_source_not_emptied :
    (rawMemoryMoveCtor ⟨1, 5⟩).2 = ⟨1, 5⟩ ∧
    (rawMemoryMoveCtor ⟨1, 5⟩).2 ≠ rawMemoryNull ∧
    (rawMemoryMoveAssign ⟨2, 3⟩ ⟨1, 5⟩).2 = ⟨1, 5⟩ ∧
    (rawMemoryMoveAssign ⟨2, 3⟩ ⟨1, 5⟩).1 = ⟨1, 5⟩ :=
  ⟨rfl, by decide, rfl, rfl⟩

/-- C5 (counterexample): move assignment is a swap, so assigning from a
two-element vector into a nonempty one-element vector leaves the source
with one element, not empty as claimed. -/
theorem c5_move_assign_source_not_empty :
    ((vectorMoveAssign false (⟨[.val 10, .raw], 1⟩ : Vec Nat)
      ⟨[.val 20, .val 30], 2⟩).2).size ≠ 0 := by
  decide

/-- C5 (amended): move construction hands the contents of the source to
the target and leaves the source default-constructed (empty); move
assignment between distinct objects swaps the two vectors, so the target
acquires exactly the prior size and values of the source while the source
is left holding the prior contents of the target — empty only when the
target was empty. -/
theorem c5_move_semantics_amended {α : Type u} (v w : Vec α) :
    vectorMoveCtor w = (w, vectorDefault) ∧
    vectorMoveAssign false v w = (w, v) :=
  ⟨rfl, rfl⟩

/-- C6: Copy assignment between distinct vectors gives the target the size
and element values of the source and returns the source unwritten.  When
the source size exceeds the target capacity, a full temporary copy is
built and swapped in, so a copy construction failing at any element leaves
the target untouched (strong guarantee).  When the capacity suffices, the
common prefix is overwritten in place, so a copy failing at element k of
the prefix escapes with the first k slots already holding source values,
every other slot and the size and capacity unchanged (basic guarantee
only). -/
theorem c6_copy_assign_paths {α : Type u} (v w : Vec α) (k : Nat) :
    (copyAssignF none false v w = .ok (copyAssign false v w, w) ∧
      (copyAssign false v w).size = w.size ∧
      (∀ i, i < w.size → getS (copyAssign false v w).cells i = getS w.cells i)) ∧
    (v.capacity < w.size → k < w.size →
      copyAssignF (some k) false v w = .error (v, w)) ∧
    (w.size ≤ v.capacity → k < w.size → k < v.size →
      copyAssignF (some k) false v w =
        .error ({ cells := copyRange w.cells 0 k v.cells 0, size := v.size }, w) ∧
      (copyRange w.cells 0 k v.cells 0).length = v.cells.length ∧
      (∀ i, i < k → getS (copyRange w.cells 0 k v.cells 0) i = getS w.cells i) ∧
      (∀ i, k ≤ i → getS (copyRange w.cells 0 k v.cells 0) i = getS v.cells i)) := by
  refine ⟨⟨copyAssignF_none_ok v w, copyAssign_size v w, ?_⟩, ?_, ?_⟩
  · intro i hi
    exact getS_copyAssign v w i hi
  · intro h1 hk
    exact copyAssignF_realloc_error v w k h1 hk
  · intro hcap hk1 hk2
    refine ⟨copyAssignF_reuse_error v w k (by omega) hk1 hk2, ?_, ?_, ?_⟩
    · unfold copyRange
      rw [fillN_length]
    · intro i hi
      have hlen : i < v.cells.length := by
        have : w.size ≤ v.cells.length := hcap
        omega
      exact getS_copyRange_prefix_in w v.cells k i hi hlen
    · intro i hi
      exact getS_copyRange_prefix_out w v.cells k i hi

/-- C6 witness: a concrete run of each path — the strong-guarantee error,
the successful in-place assignment, and the mixed prefix state of a
failing in-place assignment. -/
theorem c6_copy_assign_paths_witness :
    copyAssignF (some 0) false (⟨[.val 1], 1⟩ : Vec Nat) ⟨[.val 7, .val 8], 2⟩ =
      .error (⟨[.val 1], 1⟩, ⟨[.val 7, .val 8], 2⟩) ∧
    (copyAssign false (⟨[.val 1, .val 2, .raw], 2⟩ : Vec Nat) ⟨[.val 7, .val 8], 2⟩).size
      = 2 ∧
    getS (copyRange (⟨[.val 7, .val 8], 2⟩ : Vec Nat).cells 0 1
      (⟨[.val 1, .val 2, .raw], 2⟩ : Vec Nat).cells 0) 0 = .val 7 := by
  have h1 := c6_copy_assign_paths (⟨[.val 1], 1⟩ : Vec Nat) ⟨[.val 7, .val 8], 2⟩ 0
  have h2 := c6_copy_assign_paths (⟨[.val 1, .val 2, .raw], 2⟩ : Vec Nat)
    ⟨[.val 7, .val 8], 2⟩ 1
  exact ⟨h1.2.1 (by decide) (by decide), h2.1.2.1,
    (h2.2.2 (by decide) (by decide) (by decide)).2.2.1 0 (by decide)⟩

/-- C7: Every implicit reallocation — EmplaceBack, PushBack (which
forwards to EmplaceBack), Emplace and Insert (which forwards to Emplace),
triggered when size equals capacity — allocates a new block of capacity
exactly max(1, size * 2). -/
theorem c7_growth_capacity {α : Type u} (tc : Traits α) (v : Vec α) (a : α) (shift : Nat)
    (hfull : v.size = v.capacity) (hshift : shift ≤ v.size) :
    (emplaceBack tc a v).capacity = max 1 (v.size * 2) ∧
    pushBack tc a v = emplaceBack tc a v ∧
    (emplace tc v shift a).capacity = max 1 (v.size * 2) ∧
    insert tc v shift a = emplace tc v shift a := by
  refine ⟨?_, rfl, ?_, rfl⟩
  · rw [emplaceBack_capacity_realloc tc a v hfull]
    split <;> omega
  · rw [emplace_capacity_realloc tc v shift a hfull]
    split <;> omega

/-- C7 witness: appending to a full one-element vector doubles the
capacity to 2 = max(1, 1 * 2). -/
theorem c7_growth_capacity_witness :
    (emplaceBack (⟨true, true, true, 0⟩ : Traits Nat) 2 ⟨[.val 1], 1⟩).capacity = max 1 2 :=
  (c7_growth_capacity (⟨true, true, true, 0⟩ : Traits Nat) ⟨[.val 1], 1⟩ 2 0
    (by decide) (by decide)).1

/-- C8 (counterexample): Emplace without reallocation into a nonempty
vector first moves the tail aside and destroys the slot at the insertion
position; if the construction of the new element then throws, the
escaping state has a raw slot inside the live range and a live slot at
index size, violating the class invariant. -/
theorem c8_emplace_throw_breaks_invariant :
    ¬ VecInv (runState (emplaceF (⟨true, true, false, 0⟩ : Traits Nat) none
      ⟨[.val 1, .val 2, .raw, .raw], 2⟩ 0)) := by
  rw [vecInv_iff_invB]
  decide

/-- C8 (amended): The invariant — size at most capacity, slots below size
live, slots at or above size raw — is preserved by every public operation
on its success path, by both outcomes of EmplaceBack and of copy
assignment, and by the reallocating failure path of Emplace, with size
updated only after constructions succeed (the grown size after EmplaceBack
and Emplace, the reduced size after PopBack) and EmplaceBack escaping with
the vector unchanged when the construction of the new element throws.  The
one exception, shown by the counterexample, is the non-reallocating
Emplace path when the construction of the new element throws after the
shift. -/
theorem c8_invariant_preservation {α : Type u} (tc : Traits α) (v w u : Vec α)
    (hv : VecInv v) (hw : VecInv w) (hu : VecInv u)
    (n k shift index shiftu : Nat) (a : α) (failAt : Option Nat) (same : Bool)
    (hshift : shift ≤ v.size) (hindex : index < v.size)
    (hufull : u.size = u.capacity) :
    VecInv (mkVectorSized tc n) ∧
    VecInv (vectorCopy w) ∧
    VecInv (vectorMoveCtor w).1 ∧
    VecInv (vectorMoveCtor w).2 ∧
    VecInv (vectorMoveAssign same v w).1 ∧
    VecInv (vectorMoveAssign same v w).2 ∧
    (VecInv (runStateP (copyAssignF failAt same v w)).1 ∧
      (runStateP (copyAssignF failAt same v w)).2 = w) ∧
    VecInv (reserve tc v n) ∧
    VecInv (resize tc v n) ∧
    VecInv (emplaceBack tc a v) ∧
    emplaceBackF tc none v = .error v ∧
    VecInv (popBack v) ∧
    VecInv (emplace tc v shift a) ∧
    emplaceF tc none u shiftu = .error u ∧
    VecInv (erase tc v index) ∧
    (emplaceBack tc a v).size = v.size + 1 ∧
    (emplace tc v shift a).size = v.size + 1 ∧
    (popBack v).size = v.size - 1 := by
  refine ⟨vecInv_mkVectorSized tc n, vecInv_vectorCopy w hw, hw, vecInv_vectorDefault,
    ?_, ?_, vecInv_copyAssignF failAt same v w hv hw, vecInv_reserve tc v n hv,
    vecInv_resize tc v n hv, vecInv_emplaceBack tc a v hv, emplaceBackF_none tc v,
    vecInv_popBack v hv, vecInv_emplace tc v shift a hv hshift,
    emplaceF_none_full tc u shiftu hufull, vecInv_erase tc v index hv hindex,
    emplaceBack_size tc a v, emplace_size tc v shift a, ?_⟩
  · cases same with
    | true => exact hv
    | false => exact hw
  · cases same with
    | true => exact hw
    | false => exact hv
  · unfold popBack
    split
    · rfl
    · next h0 => omega

/-- C8 witness: the amended preservation statement evaluated at concrete
vectors, here the sized constructor and the reallocating failure path of
Emplace on a full vector. -/
theorem c8_invariant_preservation_witness :
    VecInv (mkVectorSized (⟨true, true, true, 0⟩ : Traits Nat) 3) ∧
    emplaceF (⟨true, true, true, 0⟩ : Traits Nat) none (⟨[.val 3], 1⟩ : Vec Nat) 0 =
      .error ⟨[.val 3], 1⟩ := by
  have h := c8_invariant_preservation (⟨true, true, true, 0⟩ : Traits Nat)
    (⟨[.val 1, .val 2, .raw, .raw], 2⟩ : Vec Nat) (⟨[.val 5, .raw], 1⟩ : Vec Nat)
    (⟨[.val 3], 1⟩ : Vec Nat)
    ((vecInv_iff_invB _).mpr (by decide)) ((vecInv_iff_invB _).mpr (by decide))
    ((vecInv_iff_invB _).mpr (by decide)) 3 0 1 0 0 7 none false
    (by decide) (by decide) (by decide)
  exact ⟨h.1, h.2.2.2.2.2.2.2.2.2.2.2.2.2.1⟩

/-- C9: Self assignment is guarded by the address comparison this != rhs,
so copy-assigning or move-assigning a vector to itself (guard finds the
same object) is a no-op leaving size, capacity and elements unchanged, for
any failure schedule. -/
theorem c9_self_assignment_noop {α : Type u} (v : Vec α) (failAt : Option Nat) :
    copyAssignF failAt true v v = .ok (v, v) ∧
    vectorMoveAssign true v v = (v, v) :=
  ⟨rfl, rfl⟩

/-- C10: The sized constructor and the growing branch of Resize fill every
newly added slot with std::uninitialized_value_construct_n, so each new
element holds the value-initialized value of the element type — zero for
arithmetic element types, modeled by the valueInit field of the traits. -/
theorem c10_value_initialization {α : Type u} (tc : Traits α) (n m i j : Nat) (v : Vec α)
    (hi : i < n) (hj1 : v.size ≤ j) (hj2 : j < m) :
    (mkVectorSized tc n).size = n ∧
    getS (mkVectorSized tc n).cells i = .val tc.valueInit ∧
    (resize tc v m).size = m ∧
    getS (resize tc v m).cells j = .val tc.valueInit :=
  ⟨rfl, getS_mkVectorSized tc n i hi, resize_size tc v m,
    getS_resize_new tc v m j hj1 hj2⟩

/-- C10 witness: with the integer traits whose value initialization is
zero, the new elements of the sized constructor and of a growing Resize
are zero. -/
theorem c10_value_initialization_witness :
    getS (mkVectorSized (⟨true, true, false, (0 : Int)⟩ : Traits Int) 2).cells 1 =
      .val 0 ∧
    getS (resize (⟨true, true, false, (0 : Int)⟩ : Traits Int)
      ⟨[.val 5, .raw, .raw], 1⟩ 3).cells 2 = .val 0 := by
  have h := c10_value_initialization (⟨true, true, false, (0 : Int)⟩ : Traits Int) 2 3 1 2
    (⟨[.val 5, .raw, .raw], 1⟩ : Vec Int) (by decide) (by decide) (by decide)
  exact ⟨h.2.1, h.2.2.2⟩
